import Mathlib

/-!
Shallow embedding of the screenplay pagination / PDF-export core of the
LiQid screenplay editor, together with theorems settling the spec claims.

Conventions used throughout:

* JavaScript strings are modelled as `List Char` (`JStr`).
* All page-geometry quantities are integers in **centipoints** (1/100 pt),
  so every constant of the source (`841.89`, `14.4`, `14.4 * 1.1`, …)
  becomes an exact integer (`84189`, `1440`, `1584`, …).
* External primitives supplied by the browser / jsPDF (Unicode NFC
  normalization, font-metric text measurement, jsPDF's own
  `splitTextToSize`) are passed as explicit parameters; the repository's
  own deterministic fallback implementations of measurement and splitting
  are embedded verbatim and used to instantiate those parameters.
-/

/-- JavaScript strings, modelled as lists of Unicode scalar values. -/
abbrev JStr := List Char

/-- Convenience coercion from a Lean string literal to a `JStr`. -/
def js (s : String) : JStr := s.data

/-- Thai-range test used by `containsThaiText` in every copy of the
utility module: codepoint in U+0E00–U+0E7F. -/
def isThaiChar (c : Char) : Bool := 0x0E00 ≤ c.toNat && c.toNat ≤ 0x0E7F

/-- `containsThaiText(text)` from `thai-pdf-support-simple` /
`thai-pdf-support-sharp`: true iff some codepoint is in the Thai block. -/
def containsThaiText (s : JStr) : Bool := s.any isThaiChar

/-- The zero-width characters removed by `normalizeThaiText`:
the regex class `[​-‍﻿]`. -/
def isZeroWidth (c : Char) : Bool :=
  (0x200B ≤ c.toNat && c.toNat ≤ 0x200D) || c.toNat == 0xFEFF

/-- The character class matched by JavaScript's regex `\s` (WhiteSpace and
LineTerminator productions): tab, LF, VT, FF, CR, space, NBSP, Ogham space,
the U+2000–U+200A spaces, LS, PS, NNBSP, MMSP, ideographic space and the
zero-width no-break space U+FEFF. -/
def isJsSpace (c : Char) : Bool :=
  let n := c.toNat
  n == 0x09 || n == 0x0A || n == 0x0B || n == 0x0C || n == 0x0D ||
  n == 0x20 || n == 0xA0 || n == 0x1680 ||
  (0x2000 ≤ n && n ≤ 0x200A) ||
  n == 0x2028 || n == 0x2029 || n == 0x202F || n == 0x205F ||
  n == 0x3000 || n == 0xFEFF

/-- ASCII alphanumeric class `[a-zA-Z0-9]` of the spacing regexes in the
sharp `normalizeThaiText`. -/
def isAsciiAlnum (c : Char) : Bool :=
  (97 ≤ c.toNat && c.toNat ≤ 122) || (65 ≤ c.toNat && c.toNat ≤ 90) ||
  (48 ≤ c.toNat && c.toNat ≤ 57)

/-- The Thai class `[ก-๙]` (U+0E01–U+0E59) of the spacing regexes in the
sharp `normalizeThaiText`. -/
def isThaiSpacing (c : Char) : Bool := 0x0E01 ≤ c.toNat && c.toNat ≤ 0x0E59

/-- `text.replace(/[​-‍﻿]/g, '')`. -/
def stripZeroWidth (s : JStr) : JStr := s.filter (fun c => !isZeroWidth c)

/-- One global, non-overlapping pass of a two-character regex
`/(p)(q)/g → '$1 $2'`: when two adjacent characters match the classes a
space is inserted between them and scanning resumes after the match, as
JavaScript's `String.replace` with the `g` flag does. -/
def insertSpaceBetween (p q : Char → Bool) : JStr → JStr
  | [] => []
  | [c] => [c]
  | a :: b :: rest =>
    if p a && q b then a :: ' ' :: b :: insertSpaceBetween p q rest
    else a :: insertSpaceBetween p q (b :: rest)

/-- `text.replace(/\s+/g, ' ')`: every maximal run of JavaScript
whitespace collapses to a single ASCII space. -/
def collapseSpaces : JStr → JStr
  | [] => []
  | [c] => if isJsSpace c then [' '] else [c]
  | a :: b :: rest =>
    if isJsSpace a && isJsSpace b then collapseSpaces (b :: rest)
    else if isJsSpace a then ' ' :: collapseSpaces (b :: rest)
    else a :: collapseSpaces (b :: rest)

/-- `String.prototype.trim()`: removes whitespace (the same class as `\s`)
from both ends. -/
def jsTrim (s : JStr) : JStr :=
  ((s.dropWhile isJsSpace).reverse.dropWhile isJsSpace).reverse

/-- The Thai-branch body of the simple `normalizeThaiText`: strip
zero-width characters, collapse whitespace runs, trim. -/
def simplePipe (s : JStr) : JStr := jsTrim (collapseSpaces (stripZeroWidth s))

/-- The Thai-branch body of the sharp `normalizeThaiText`: strip
zero-width characters, run the two spacing regexes (Latin→Thai then
Thai→Latin boundaries), collapse whitespace runs, trim. -/
def sharpPipe (s : JStr) : JStr :=
  jsTrim (collapseSpaces
    (insertSpaceBetween isThaiSpacing isAsciiAlnum
      (insertSpaceBetween isAsciiAlnum isThaiSpacing (stripZeroWidth s))))

/-- `normalizeThaiText` from `thai-pdf-support-simple` (also at
src/unnamed/part_003 lines 10–28).  The Unicode NFC step
(`text.normalize('NFC')`) is the platform's, passed here as the parameter
`nfc`.  Source: NFC first; then, only when the NFC'd text contains a Thai
codepoint, strip zero-width characters, collapse whitespace and trim. -/
def normalizeThaiTextSimple (nfc : JStr → JStr) (text : JStr) : JStr :=
  let normalized := nfc text
  if containsThaiText normalized then simplePipe normalized
  else normalized

/-- `normalizeThaiText` from `thai-pdf-support-sharp`
(src/src/utils/thai-pdf-test-data.ts lines 512–532): like the simple one
but additionally inserting a space between adjacent ASCII-alphanumeric and
Thai characters (both orders) before collapsing whitespace. -/
def normalizeThaiTextSharp (nfc : JStr → JStr) (text : JStr) : JStr :=
  let normalized := nfc text
  if containsThaiText normalized then sharpPipe normalized
  else normalized

/-- Modelled from the spec: the platform primitive
`String.prototype.normalize('NFC')` (Unicode canonical composition), which
is not part of the repository.  The model is exact on every string built
from the codepoints exercised in this development: ASCII, Thai (U+0E00–
U+0E7F, which has no canonical decompositions), zero-width marks and the
pair U+0065 U+0301 (LATIN SMALL LETTER E followed by COMBINING ACUTE
ACCENT), which canonical composition replaces by U+00E9 (é); all other
adjacencies occurring here are left fixed by NFC. -/
def nfcModel : JStr → JStr
  | [] => []
  | [c] => [c]
  | a :: b :: rest =>
    if a = 'e' && b = '́' then 'é' :: nfcModel rest
    else a :: nfcModel (b :: rest)

/-- `validateTextForPDF` (identical in `thai-pdf-support-simple`,
src/unnamed/part_003 lines 166–181, and `thai-pdf-support-sharp`,
src/src/utils/thai-pdf-test-data.ts lines 726–741): empty / blank text is
valid; text containing a control character (U+0000–U+001F, U+007F–U+009F)
is valid with a warning; all other text is valid with no warning. -/
def isControlCharJs (c : Char) : Bool :=
  c.toNat ≤ 0x1F || (0x7F ≤ c.toNat && c.toNat ≤ 0x9F)

structure ValidationResult where
  isValid : Bool
  warning : Option JStr
  deriving Repr, DecidableEq

def validateTextForPDF (text : JStr) : ValidationResult :=
  if text = [] ∨ jsTrim text = [] then
    ⟨true, none⟩
  else if text.any isControlCharJs then
    ⟨true, some (js "Text contains control characters that may not render properly in PDF")⟩
  else
    ⟨true, none⟩

/-- `text.split(' ')` — JavaScript split on the single-space separator
(consecutive separators produce empty fields). -/
def splitOnSpace : JStr → List JStr
  | [] => [[]]
  | c :: rest =>
    match splitOnSpace rest with
    | [] => [[]]
    | h :: t => if c = ' ' then [] :: h :: t else (c :: h) :: t

/-- Maximal runs of whitespace / non-whitespace characters, in order. -/
def splitWsRuns : JStr → List JStr
  | [] => []
  | c :: rest =>
    match splitWsRuns rest with
    | [] => [[c]]
    | h :: t =>
      if isJsSpace c = isJsSpace (h.headD c) then (c :: h) :: t
      else [c] :: h :: t

/-- `text.split(/(\s+)/)` — JavaScript split keeping the captured
whitespace separators: the pieces alternate non-whitespace, whitespace,
…, with an empty piece added at an end that begins/ends with
whitespace (and `''.split` giving `['']`). -/
def splitKeepWs (s : JStr) : List JStr :=
  match s with
  | [] => [[]]
  | c :: _ =>
    let runs := splitWsRuns s
    let runs := if isJsSpace c then [] :: runs else runs
    if isJsSpace (s.getLastD c) then runs ++ [[]] else runs

/-- Deterministic width estimate of `getTextWidth`'s fallback branch in
`thai-pdf-support-simple` (src/unnamed/part_003 line 114), in centipoints:
Thai-containing text ≈ 8 pt per character, other text ≈ 6 pt. -/
def widthEstimateSimple (s : JStr) : ℤ :=
  if containsThaiText s then 800 * s.length else 600 * s.length

/-- Deterministic width estimate of `getTextWidth`'s fallback branch in
`thai-pdf-support-sharp` (src/src/utils/thai-pdf-test-data.ts line 590),
in centipoints: Thai ≈ 7.2 pt per character, other ≈ 6 pt. -/
def widthEstimateSharp (s : JStr) : ℤ :=
  if containsThaiText s then 720 * s.length else 600 * s.length

/-- Fallback word wrap of `splitThaiTextToSize` in
`thai-pdf-support-simple` (src/unnamed/part_003 lines 127–143): split on
single spaces, greedily accumulate words while the measured test line
fits, push the current line on overflow and restart from the overflowing
word.  `w` abstracts `getTextWidth`.  Note: no hard split of oversized
single words. -/
def splitSimpleGo (w : JStr → ℤ) (maxWidth : ℤ) : List JStr → JStr → List JStr
  | [], currentLine => if currentLine ≠ [] then [currentLine] else []
  | word :: words, currentLine =>
    let testLine := if currentLine ≠ [] then currentLine ++ ' ' :: word else word
    if w testLine ≤ maxWidth then splitSimpleGo w maxWidth words testLine
    else (if currentLine ≠ [] then [currentLine] else []) ++ splitSimpleGo w maxWidth words word

def splitFallbackSimple (w : JStr → ℤ) (maxWidth : ℤ) (text : JStr) : List JStr :=
  splitSimpleGo w maxWidth (splitOnSpace text) []

/-- The `while` loop of the sharp fallback that hard-splits a single
over-wide word: while the current piece is wider than `maxWidth` and
longer than one character, split off the first `Math.floor(length * 0.8)`
characters (exact as `length * 4 / 5` for the sizes exercised here) and
continue with the remainder.  The loop strictly shrinks the piece, so a
fuel equal to the starting length makes the recursion structural without
changing the result. -/
def hardSplitGo (w : JStr → ℤ) (maxWidth : ℤ) : ℕ → JStr → List JStr × JStr
  | 0, cur => ([], cur)
  | fuel + 1, cur =>
    if w cur > maxWidth ∧ cur.length > 1 then
      let bp := cur.length * 4 / 5
      let r := hardSplitGo w maxWidth fuel (cur.drop bp)
      (cur.take bp :: r.1, r.2)
    else ([], cur)

/-- Fallback wrap of `splitThaiTextToSize` in `thai-pdf-support-sharp`
(src/src/utils/thai-pdf-test-data.ts lines 603–632): split keeping
whitespace separators, accumulate while the test line fits; on overflow
push the trimmed current line, restart from the trimmed word and
hard-split it while it remains over-wide. -/
def splitSharpGo (w : JStr → ℤ) (maxWidth : ℤ) : List JStr → JStr → List JStr
  | [], currentLine => if jsTrim currentLine ≠ [] then [jsTrim currentLine] else []
  | word :: words, currentLine =>
    let testLine := currentLine ++ word
    if w testLine ≤ maxWidth then splitSharpGo w maxWidth words testLine
    else
      let pushed := if jsTrim currentLine ≠ [] then [jsTrim currentLine] else []
      let cur := jsTrim word
      let split := hardSplitGo w maxWidth cur.length cur
      pushed ++ split.1 ++ splitSharpGo w maxWidth words split.2

def splitFallbackSharp (w : JStr → ℤ) (maxWidth : ℤ) (text : JStr) : List JStr :=
  splitSharpGo w maxWidth (splitKeepWs text) []

/-- Modelled from the spec: the platform primitive
`String.prototype.toUpperCase()`, restricted to the scripts this
development exercises — ASCII letters map a–z to A–Z, and Thai characters
(which have no case) together with every other character appearing here
are fixed.  (Full Unicode special casing is not modelled.) -/
def upperChar (c : Char) : Char :=
  if 97 ≤ c.toNat && c.toNat ≤ 122 then Char.ofNat (c.toNat - 32) else c

def upperJS (s : JStr) : JStr := s.map upperChar

/-! ## Page geometry (src/src/utils/pdfExport.ts lines 16–30 and
src/unnamed/part_001 lines 16–24; both files use identical constants).
All values in centipoints. -/

def PAGE_HEIGHT : ℤ := 84189
def PAGE_WIDTH : ℤ := 59528
def MARGIN_LEFT : ℤ := 8500
def MARGIN_RIGHT : ℤ := 6800
def MARGIN_TOP : ℤ := 6800
def MARGIN_BOTTOM : ℤ := 6800
def CONTENT_WIDTH : ℤ := PAGE_WIDTH - MARGIN_LEFT - MARGIN_RIGHT
def LINE_HEIGHT : ℤ := 1440
def SCENE_NUMBER_X : ℤ := 3000

/-- `getLineHeight` (both support modules): 14.4 pt, or 14.4 × 1.1 =
15.84 pt for Thai-containing text. -/
def getLineHeight (text : JStr) : ℤ :=
  if containsThaiText text then 1584 else 1440

/-- A screenplay block (`Block` from src/types): an id, a loosely typed
string tag, and the content text. -/
structure Block where
  id : String
  type : String
  content : JStr
  deriving DecidableEq, Repr

/-- `processTextForPDF` from `thai-pdf-support-simple`
(src/unnamed/part_003 lines 31–49, 100–103): non-Thai text is returned
unchanged; Thai-containing text goes through a UTF-8 encode/decode
round-trip (the identity on Unicode strings) and `normalizeThaiText`. -/
def processTextForPDFSimple (nfc : JStr → JStr) (text : JStr) : JStr :=
  if containsThaiText text then normalizeThaiTextSimple nfc text else text

/-- `processTextForPDF` from `thai-pdf-support-sharp`
(src/src/utils/thai-pdf-test-data.ts lines 578–580): always
`normalizeThaiText` (the sharp one). -/
def processTextForPDFSharp (nfc : JStr → JStr) (text : JStr) : JStr :=
  normalizeThaiTextSharp nfc text

/-- The external primitives a PDF export depends on: the platform's NFC,
jsPDF's font-metric `pdf.getTextWidth`, and jsPDF's
`pdf.splitTextToSize`.  The repository's deterministic fallbacks
(`widthEstimateSimple` / `splitFallbackSimple`, …) instantiate
`widthOf` / `split` in the concrete scenarios below. -/
structure PdfEnv where
  nfc : JStr → JStr
  widthOf : JStr → ℤ
  split : JStr → ℤ → List JStr

/-- Output records of a render: one wrapped line of text, or a running
number label drawn next to it, each at an absolute position. -/
inductive RecKind where
  | line : RecKind
  | sceneLabel : ℕ → RecKind
  | dialogueLabel : ℕ → RecKind
  | transitionLabel : ℕ → RecKind
  deriving DecidableEq, Repr

structure Rec where
  kind : RecKind
  text : JStr
  x : ℤ
  y : ℤ
  deriving DecidableEq, Repr

/-! ## `renderStandardBlock` (src/src/utils/pdfExport.ts lines 131–225) -/

/-- One row of the `blockLayouts` table (src/src/utils/pdfExport.ts
lines 33–84). -/
structure StdLayout where
  marginLeft : ℤ
  indent : ℤ
  spaceAfter : ℤ
  uppercase : Bool
  bold : Bool
  rightAlign : Bool
  deriving DecidableEq, Repr

/-- `blockLayouts[blockType] || blockLayouts['action']`: the table has
entries for the six listed types only; every other tag (including `shot`
and `text`) falls back to `action`. -/
def stdLayoutFor (t : String) : StdLayout :=
  if t = "scene-heading" then ⟨0, 0, LINE_HEIGHT, true, true, false⟩
  else if t = "action" then ⟨0, 0, LINE_HEIGHT, false, false, false⟩
  else if t = "character" then ⟨20000, 0, 0, true, false, false⟩
  else if t = "dialogue" then ⟨13000, 0, LINE_HEIGHT, false, false, false⟩
  else if t = "parenthetical" then ⟨16500, 0, 0, false, false, false⟩
  else if t = "transition" then ⟨0, 0, LINE_HEIGHT, true, false, true⟩
  else ⟨0, 0, LINE_HEIGHT, false, false, false⟩

/-- The per-line loop of `renderStandardBlock` (lines 181–221): page-break
check before each line (`y > PAGE_HEIGHT - MARGIN_BOTTOM - lineHeight`
rolls the cursor back to the top margin), right-aligned x re-computed per
line, the text drawn through `addThaiText` (which processes it again), and
a dialogue / transition number drawn at the last line's y. -/
def renderStdLines (env : PdfEnv) (layout : StdLayout) (btype : String)
    (dialogueNumber transitionNumber : Option ℕ) (lineHeight finalX : ℤ) :
    List JStr → ℤ → List Rec × ℤ
  | [], y => ([], y)
  | line :: rest, y =>
    let y1 := if y > PAGE_HEIGHT - MARGIN_BOTTOM - lineHeight then MARGIN_TOP else y
    let lineX := if layout.rightAlign then MARGIN_LEFT + CONTENT_WIDTH - env.widthOf line else finalX
    let lineRec : Rec := ⟨.line, processTextForPDFSimple env.nfc line, lineX, y1⟩
    let isLast := rest.isEmpty
    let dRecs := if btype = "dialogue" ∧ isLast then
        match dialogueNumber with
        | some n =>
          let numberText := js (toString n)
          [Rec.mk (.dialogueLabel n) numberText
            (MARGIN_LEFT + CONTENT_WIDTH - env.widthOf numberText) y1]
        | none => []
      else []
    let tRecs := if btype = "transition" ∧ isLast then
        match transitionNumber with
        | some n =>
          let numberText := js (toString n)
          [Rec.mk (.transitionLabel n) numberText
            (MARGIN_LEFT + CONTENT_WIDTH - env.widthOf numberText - 2000) y1]
        | none => []
      else []
    let r := renderStdLines env layout btype dialogueNumber transitionNumber
      lineHeight finalX rest (y1 + lineHeight)
    (lineRec :: dRecs ++ tRecs ++ r.1, r.2)

/-- The text-preparation head of `renderStandardBlock` (lines 142–147):
`processTextForPDF` the content, then uppercase it exactly when the
layout says so and the processed content contains no Thai codepoint. -/
def stdBlockText (nfc : JStr → JStr) (block : Block) : JStr :=
  let text0 := processTextForPDFSimple nfc block.content
  if (stdLayoutFor block.type).uppercase ∧ ¬ containsThaiText text0 then upperJS text0 else text0

/-- `renderStandardBlock(pdf, block, y, sceneNumber?, dialogueNumber?,
transitionNumber?)`: processes and case-transforms the content, emits the
scene number at the incoming `y` (before any page-break check), then the
wrapped lines, and finally advances the cursor by the layout's
`spaceAfter`. -/
def renderStandardBlock (env : PdfEnv) (block : Block) (y : ℤ)
    (sceneNumber dialogueNumber transitionNumber : Option ℕ) : List Rec × ℤ :=
  let layout := stdLayoutFor block.type
  let text := stdBlockText env.nfc block
  let x := MARGIN_LEFT + layout.marginLeft + layout.indent
  let maxWidth := CONTENT_WIDTH - layout.marginLeft - layout.indent
  let finalX := if layout.rightAlign then MARGIN_LEFT + CONTENT_WIDTH - env.widthOf text else x
  let lines := env.split (processTextForPDFSimple env.nfc text) maxWidth
  let lineHeight := getLineHeight text
  let sceneRecs := if block.type = "scene-heading" then
      match sceneNumber with
      | some n => [Rec.mk (.sceneLabel n) (js (toString n)) SCENE_NUMBER_X y]
      | none => []
    else []
  let r := renderStdLines env layout block.type dialogueNumber transitionNumber
    lineHeight finalX lines y
  (sceneRecs ++ r.1, r.2 + layout.spaceAfter)

/-! ## `exportToStandardPDF` content loop
(src/src/utils/pdfExport.ts lines 292–340) -/

/-- `handleParentheticalDialogue(blocks, index)` (lines 228–253): when the
current block is a parenthetical and the next is a dialogue, a combined
dialogue block carrying `current.content + " " + next.content` (and the
dialogue block's other fields) is returned, to replace both. -/
def handleParentheticalDialogue (current : Block) (next : Option Block) : Option Block :=
  match next with
  | some nb =>
    if current.type = "parenthetical" ∧ nb.type = "dialogue" then
      some { nb with content := current.content ++ ' ' :: nb.content, type := "dialogue" }
    else none
  | none => none

/-- A planned render call of the content loop: the block to draw and the
counter values passed for it (`undefined` = `none`). -/
structure Step where
  block : Block
  scene : Option ℕ
  dialogue : Option ℕ
  transition : Option ℕ
  deriving DecidableEq, Repr

/-- The counter bookkeeping of the non-merged branch of the loop
(lines 322–339): the block's own counter is pre-incremented and passed;
the other two are `undefined`. -/
def stepCounters (s d t : ℕ) (b : Block) : Step × ℕ × ℕ × ℕ :=
  if b.type = "scene-heading" then (⟨b, some (s + 1), none, none⟩, s + 1, d, t)
  else if b.type = "dialogue" then (⟨b, none, some (d + 1), none⟩, s, d + 1, t)
  else if b.type = "transition" then (⟨b, none, none, some (t + 1)⟩, s, d, t + 1)
  else (⟨b, none, none, none⟩, s, d, t)

/-- The decision-and-counter part of `exportToStandardPDF`'s `for` loop
(lines 297–340), starting from counters `(s, d, t)`: on a
parenthetical-followed-by-dialogue pair the combined block is planned with
a pre-incremented dialogue number and the next block is skipped
(`i++; continue`); otherwise the block is planned via `stepCounters`.
Folding `renderStandardBlock` over the resulting plan (see
`runStandardRender`) reproduces the source loop exactly, because the
render calls never read or write the counters and the planning never
touches the cursor — the enhanced variant below has this two-phase
structure literally in the source. -/
def standardSteps (s d t : ℕ) : List Block → List Step
  | [] => []
  | [b] => [(stepCounters s d t b).1]
  | b :: nb :: rest =>
    match handleParentheticalDialogue b (some nb) with
    | some combined =>
      let d1 := if combined.type = "dialogue" then d + 1 else d
      ⟨combined, none, some d1, none⟩ :: standardSteps s d1 t rest
    | none =>
      let r := stepCounters s d t b
      r.1 :: standardSteps r.2.1 r.2.2.1 r.2.2.2 (nb :: rest)

/-- Folding the render over the plan, threading the vertical cursor. -/
def runStandardRender (env : PdfEnv) : ℤ → List Step → List Rec
  | _, [] => []
  | y, st :: rest =>
    let r := renderStandardBlock env st.block y st.scene st.dialogue st.transition
    r.1 ++ runStandardRender env r.2 rest

/-- All records emitted for the content pages by `exportToStandardPDF`:
cursor starts at the top margin, all three counters at 0. -/
def exportStandardRecords (env : PdfEnv) (blocks : List Block) : List Rec :=
  runStandardRender env MARGIN_TOP (standardSteps 0 0 0 blocks)

/-- The pre-processing pass of `exportToEnhancedStandardPDF`
(src/src/utils/pdfExport.ts lines 403–446): counters are bumped first
(`counters.scene++` …); a parenthetical followed by a dialogue pushes the
combined block with `dialogue: counters.dialogue` — the value as of the
parenthetical's iteration, with no increment for the combined block — and
skips the dialogue; every other block is pushed with its own counter. -/
def enhancedSteps (s d t : ℕ) : List Block → List Step
  | [] => []
  | [b] =>
    let s1 := if b.type = "scene-heading" then s + 1 else s
    let d1 := if b.type = "dialogue" then d + 1 else d
    let t1 := if b.type = "transition" then t + 1 else t
    [⟨b, if b.type = "scene-heading" then some s1 else none,
        if b.type = "dialogue" then some d1 else none,
        if b.type = "transition" then some t1 else none⟩]
  | b :: nb :: rest =>
    let s1 := if b.type = "scene-heading" then s + 1 else s
    let d1 := if b.type = "dialogue" then d + 1 else d
    let t1 := if b.type = "transition" then t + 1 else t
    if b.type = "parenthetical" ∧ nb.type = "dialogue" then
      ⟨{ nb with content := b.content ++ ' ' :: nb.content }, none, some d1, none⟩ ::
        enhancedSteps s1 d1 t1 rest
    else
      ⟨b, if b.type = "scene-heading" then some s1 else none,
          if b.type = "dialogue" then some d1 else none,
          if b.type = "transition" then some t1 else none⟩ ::
        enhancedSteps s1 d1 t1 (nb :: rest)

/-! ## `exportToPDF` (src/unnamed/part_001, the "sharp" exporter) -/

/-- A row of `LAYOUT_POSITIONS` (src/unnamed/part_001 lines 27–36),
falling back to `action` for unknown tags. -/
structure SharpLayout where
  marginLeft : ℤ
  bold : Bool
  uppercase : Bool
  alignRight : Bool
  deriving DecidableEq, Repr

def sharpLayoutFor (t : String) : SharpLayout :=
  if t = "scene-heading" then ⟨0, true, true, false⟩
  else if t = "action" then ⟨0, false, false, false⟩
  else if t = "character" then ⟨20000, false, true, false⟩
  else if t = "dialogue" then ⟨13000, false, false, false⟩
  else if t = "parenthetical" then ⟨16500, false, false, false⟩
  else if t = "transition" then ⟨0, false, true, true⟩
  else if t = "text" then ⟨0, false, false, false⟩
  else if t = "shot" then ⟨0, true, true, false⟩
  else ⟨0, false, false, false⟩

/-- `willTextFitOnPage` (src/src/utils/thai-pdf-test-data.ts
lines 639–646). -/
def willTextFitOnPage (currentY : ℤ) (additionalLines : ℕ) : Bool :=
  currentY + additionalLines * LINE_HEIGHT ≤ PAGE_HEIGHT - MARGIN_BOTTOM

/-- `addPageBreakIfNeeded` (lines 649–656): roll to the top margin when
the required lines do not fit. -/
def addPageBreakIfNeeded (currentY : ℤ) (requiredLines : ℕ) : ℤ :=
  if ¬ willTextFitOnPage currentY requiredLines then MARGIN_TOP else currentY

/-- `validateTextPosition` (lines 659–687): clamp x into the horizontal
content band (left bound 68 pt) and clamp y to the bottom margin. -/
def validateTextPosition (x y textWidth : ℤ) : ℤ × ℤ :=
  let vx := if x + textWidth > PAGE_WIDTH - MARGIN_RIGHT then PAGE_WIDTH - MARGIN_RIGHT - textWidth else x
  let vx2 := if vx < 6800 then 6800 else vx
  let vy := if y > PAGE_HEIGHT - MARGIN_BOTTOM then PAGE_HEIGHT - MARGIN_BOTTOM else y
  (vx2, vy)

/-- The per-line loop of `exportToPDF` (src/unnamed/part_001
lines 159–192): each line is trimmed and skipped when blank (the index
still advances, so a skipped first line forfeits the dialogue number); a
fresh one-line fit check may roll the cursor to the top margin; the line
(and, for a dialogue block's line at index 0, the dialogue number, which
is attached and only then incremented) is drawn through the sharp
`addThaiText`, whose `validateTextPosition` clamps the final coordinates.
Returns the records, the cursor and the dialogue counter. -/
def sharpLines (env : PdfEnv) (layout : SharpLayout) (btype : String) :
    List JStr → ℤ → ℕ → Bool → List Rec × ℤ × ℕ
  | [], y, d, _ => ([], y, d)
  | l :: rest, y, d, isFirst =>
    let line := jsTrim l
    if line = [] then sharpLines env layout btype rest y d false
    else
      let y1 := if ¬ willTextFitOnPage y 1 then MARGIN_TOP else y
      let lineX := if layout.alignRight then
          PAGE_WIDTH - MARGIN_RIGHT - env.widthOf (processTextForPDFSharp env.nfc line)
        else MARGIN_LEFT + layout.marginLeft
      let processed := processTextForPDFSharp env.nfc line
      let pos := validateTextPosition lineX y1 (env.widthOf processed)
      let lineRec : Rec := ⟨.line, processed, pos.1, pos.2⟩
      let dres := if btype = "dialogue" ∧ isFirst then
          let numberText := js (toString d)
          let numberX := PAGE_WIDTH - MARGIN_RIGHT - env.widthOf (processTextForPDFSharp env.nfc numberText)
          let nproc := processTextForPDFSharp env.nfc numberText
          let npos := validateTextPosition numberX y1 (env.widthOf nproc)
          ([Rec.mk (.dialogueLabel d) nproc npos.1 npos.2], d + 1)
        else ([], d)
      let r := sharpLines env layout btype rest (y1 + LINE_HEIGHT) dres.2 false
      (lineRec :: dres.1 ++ r.1, r.2)

/-- The content loop of `exportToPDF` (src/unnamed/part_001
lines 124–196): blank blocks are skipped outright (before any counter);
scene headings get `"<n>. "` prefixed into their text and bump the scene
counter; the uppercase transform applies only to non-Thai text; the block
is wrapped, a block-level page-break check runs, the lines are drawn, and
the cursor gains an extra half line height after the block.  Counters
start at 1 (`dialogueNumber = 1; sceneNumber = 1`). -/
def exportSharpLoop (env : PdfEnv) : List Block → ℤ → ℕ → ℕ → List Rec
  | [], _, _, _ => []
  | b :: rest, y, d, s =>
    if jsTrim b.content = [] then exportSharpLoop env rest y d s
    else
      let layout := sharpLayoutFor b.type
      let maxWidth := CONTENT_WIDTH - layout.marginLeft
      let p := if b.type = "scene-heading" then (js (toString s) ++ js ". " ++ b.content, s + 1)
        else (b.content, s)
      let text := if layout.uppercase ∧ ¬ containsThaiText p.1 then upperJS p.1 else p.1
      let lines := env.split (processTextForPDFSharp env.nfc text) maxWidth
      let y0 := addPageBreakIfNeeded y lines.length
      let r := sharpLines env layout b.type lines y0 d true
      r.1 ++ exportSharpLoop env rest (r.2.1 + 720) r.2.2 p.2

def exportSharpRecords (env : PdfEnv) (blocks : List Block) : List Rec :=
  exportSharpLoop env blocks MARGIN_TOP 1 1

/-! ## `PrintableScreenplay` flow backend
(src/src/components/screenplay/PrintableScreenplay.tsx lines 24–106) -/

/-- One rendered script element: its CSS class, its visible text, and the
running number shown in an inner span, if any. -/
structure PrintedElem where
  cls : String
  text : JStr
  num : Option ℕ
  deriving DecidableEq, Repr

/-- `renderBlock` mapped over the blocks with the component's
`sceneNumber` / `dialogNumber` counters (both start at 1 and are
post-incremented).  `toUpperCase` is applied unconditionally to
scene-heading, character, shot and transition content; a parenthetical is
wrapped in literal parens; a transition gains a trailing colon when
missing. -/
def printableRender : ℕ → ℕ → List Block → List PrintedElem
  | _, _, [] => []
  | s, d, b :: rest =>
    if b.type = "scene-heading" then
      ⟨"scene-line", upperJS b.content, some s⟩ :: printableRender (s + 1) d rest
    else if b.type = "action" ∨ b.type = "text" then
      ⟨"action", b.content, none⟩ :: printableRender s d rest
    else if b.type = "character" then
      ⟨"character", upperJS b.content, none⟩ :: printableRender s d rest
    else if b.type = "dialogue" then
      ⟨"dialogue", b.content, some d⟩ :: printableRender s (d + 1) rest
    else if b.type = "parenthetical" then
      ⟨"paren", '(' :: (b.content ++ [')']), none⟩ :: printableRender s d rest
    else if b.type = "shot" then
      ⟨"shot", upperJS b.content, none⟩ :: printableRender s d rest
    else if b.type = "transition" then
      let u := upperJS b.content
      ⟨"transition", if u.getLastD ' ' = ':' then u else u ++ [':'], none⟩ ::
        printableRender s d rest
    else
      ⟨"action", b.content, none⟩ :: printableRender s d rest

def printableScreenplay (blocks : List Block) : List PrintedElem :=
  printableRender 1 1 blocks

/-! ## Projections and concrete instantiations used by the theorems -/

/-- Whether a record is a scene-number margin label. -/
def Rec.isSceneLabel (r : Rec) : Bool :=
  match r.kind with
  | .sceneLabel _ => true
  | _ => false

/-- The dialogue numbers carried by a record list, in emission order. -/
def recDialogueNums (recs : List Rec) : List ℕ :=
  recs.filterMap (fun r => match r.kind with | .dialogueLabel n => some n | _ => none)

/-- Scene / dialogue / transition numbers assigned to the planned render
calls, in order. -/
def stepsScenes (steps : List Step) : List ℕ := steps.filterMap (·.scene)

def stepsDialogues (steps : List Step) : List ℕ := steps.filterMap (·.dialogue)

def stepsTransitions (steps : List Step) : List ℕ := steps.filterMap (·.transition)

/-- Scene numbers shown by the flow backend, in document order. -/
def printableSceneNums (elems : List PrintedElem) : List ℕ :=
  elems.filterMap (fun e => if e.cls = "scene-line" then e.num else none)

/-- Dialogue numbers shown by the flow backend, in document order. -/
def printableDialogueNums (elems : List PrintedElem) : List ℕ :=
  elems.filterMap (fun e => if e.cls = "dialogue" then e.num else none)

/-- The fully deterministic environment: the NFC model together with the
repository's own fallback measurement and fallback wrap from
`thai-pdf-support-simple` — exactly what the export runs when jsPDF's
metric and splitting primitives are unavailable. -/
def envSimple : PdfEnv :=
  ⟨nfcModel, widthEstimateSimple, fun t m => splitFallbackSimple widthEstimateSimple m t⟩

/-- Blocks whose export drives the cursor just past the last fitting line
so that the following scene heading's margin number is drawn below the
bottom margin: twenty-five one-line action blocks then a scene heading. -/
def overflowBlocks : List Block :=
  List.replicate 25 ⟨"a", "action", js "a"⟩ ++ [⟨"s", "scene-heading", js "INT"⟩]

/-- Number of blocks of a given type tag. -/
def countType (t : String) : List Block → ℕ
  | [] => 0
  | b :: rest => (if b.type = t then 1 else 0) + countType t rest

/-! ## Claim theorems -/

/-- C10: `validateTextForPDF` returns `isValid = true` on every input —
control characters only attach a warning — so the pre-render validation
step can never reject a block's content or abort an export. -/
theorem validateTextForPDF_always_valid (text : JStr) :
    (validateTextForPDF text).isValid = true := by
  unfold validateTextForPDF
  split
  · rfl
  · split <;> rfl

/-- C4 (failing input): on the ten-character unbreakable Latin word
`"aaaaaaaaaa"` with a 10 pt budget, the sharp fallback wrap hard-splits at
the fixed 80 % offset and emits the line `"aaaaaaaa"`, whose own fallback
measurement is 48 pt — far beyond the budget — and the simple fallback
wrap emits the whole 60 pt word as one line; both contradict the stated
(and intended, per the source's own "PREVENTS overflow" banner) width
invariant.  Widths in centipoints. -/
theorem hardSplit_emits_overwide_line :
    splitFallbackSharp widthEstimateSharp 1000 (js "aaaaaaaaaa")
      = [js "aaaaaaaa", js "a", js "a"]
    ∧ widthEstimateSharp (js "aaaaaaaa") = 4800
    ∧ (4800 : ℤ) > 1000
    ∧ splitFallbackSimple widthEstimateSimple 1000 (js "aaaaaaaaaa")
      = [js "aaaaaaaaaa"]
    ∧ widthEstimateSimple (js "aaaaaaaaaa") = 6000 := by
  decide

set_option maxRecDepth 100000 in
/-- C1 (counterexample): after twenty-five one-line action blocks the
cursor stands at 788 pt; the next scene heading's margin number is drawn
there — below the 773.89 pt bottom boundary — because
`renderStandardBlock` emits it before any page-break check. -/
theorem sceneLabel_below_bottom_margin :
    (Rec.mk (.sceneLabel 1) (js "1") SCENE_NUMBER_X 78800)
      ∈ exportStandardRecords envSimple overflowBlocks
    ∧ (78800 : ℤ) > PAGE_HEIGHT - MARGIN_BOTTOM := by
  decide

/-- C2 (counterexample): `exportToEnhancedStandardPDF` tags a merged
parenthetical+dialogue with the dialogue counter's value from *before*
any increment: on `[parenthetical "(x)", dialogue "hi"]` the combined
block carries number 0, not 1. -/
theorem enhanced_merged_number_stale :
    enhancedSteps 0 0 0 [⟨"p", "parenthetical", js "(x)"⟩, ⟨"d", "dialogue", js "hi"⟩]
      = [⟨⟨"d", "dialogue", js "(x) hi"⟩, none, some 0, none⟩]
    ∧ (0 : ℕ) ≠ 1 := by
  decide

/-- C5 (counterexample): the flow backend uppercases a scene heading
unconditionally, so the mixed Thai+Latin content `"aก"` is rendered
`"Aก"` — its Latin letter is uppercased even though the content contains
a Thai codepoint. -/
theorem printable_uppercases_mixed_content :
    printableScreenplay [⟨"s", "scene-heading", js "aก"⟩]
      = [⟨"scene-line", js "Aก", some 1⟩]
    ∧ containsThaiText (js "aก") = true
    ∧ js "Aก" ≠ js "aก" := by
  decide

/-- C6 (counterexample): on `[parenthetical "(x)", dialogue "hi"]` the
direct-draw engine renders a single merged block while the flow backend
renders two separate elements — the parenthetical merge is not shared
logic, so the backends disagree on which blocks exist. -/
theorem flow_backend_skips_merge :
    (standardSteps 0 0 0 [⟨"p", "parenthetical", js "(x)"⟩, ⟨"d", "dialogue", js "hi"⟩]).length = 1
    ∧ (printableScreenplay [⟨"p", "parenthetical", js "(x)"⟩, ⟨"d", "dialogue", js "hi"⟩]).length = 2 := by
  decide

/-- C7 (counterexample): a string with no Thai codepoint skips the
zero-width strip entirely — `"a​b"` comes back with its zero-width
space intact from both `normalizeThaiText` implementations (NFC fixes
this string, as `nfcModel` does). -/
theorem normalize_keeps_zero_width_without_thai :
    normalizeThaiTextSimple nfcModel ['a', '​', 'b'] = ['a', '​', 'b']
    ∧ normalizeThaiTextSharp nfcModel ['a', '​', 'b'] = ['a', '​', 'b']
    ∧ '​' ∈ ['a', '​', 'b']
    ∧ isZeroWidth '​' = true := by
  decide

/-- C8 (counterexample): normalization is not idempotent under real NFC:
in `"กe‌́"` the ZWNJ blocks composition, so the first pass (NFC
a fixed point, then strip) yields `e` followed by a bare combining acute;
the second pass's NFC composes them into `é`, changing the string.  Both
implementations are affected. -/
theorem normalize_not_idempotent :
    normalizeThaiTextSimple nfcModel
        (normalizeThaiTextSimple nfcModel ['ก', 'e', '‌', '́'])
      ≠ normalizeThaiTextSimple nfcModel ['ก', 'e', '‌', '́']
    ∧ normalizeThaiTextSharp nfcModel
        (normalizeThaiTextSharp nfcModel ['ก', 'e', '‌', '́'])
      ≠ normalizeThaiTextSharp nfcModel ['ก', 'e', '‌', '́'] := by
  decide

/-- C9 (counterexample): an empty action block emits no records but still
advances the cursor by its layout's `spaceAfter` (one line height), and an
empty scene heading still emits its scene-number record — rendering a
zero-line block is not a no-op. -/
theorem empty_block_advances_cursor :
    renderStandardBlock envSimple ⟨"e", "action", js ""⟩ MARGIN_TOP none none none
      = ([], MARGIN_TOP + LINE_HEIGHT)
    ∧ MARGIN_TOP + LINE_HEIGHT ≠ MARGIN_TOP
    ∧ (renderStandardBlock envSimple ⟨"e2", "scene-heading", js ""⟩ MARGIN_TOP (some 1) none none).1
      = [Rec.mk (.sceneLabel 1) (js "1") SCENE_NUMBER_X MARGIN_TOP] := by
  decide

theorem cons_range' (x k : ℕ) : x :: List.range' (x + 1) k = List.range' x (1 + k) := by
  rw [Nat.add_comm 1 k]
  exact (List.range'_succ x k 1).symm

theorem standardSteps_nums : ∀ (s d t : ℕ) (blocks : List Block),
    stepsScenes (standardSteps s d t blocks)
      = List.range' (s + 1) (countType "scene-heading" blocks)
    ∧ stepsDialogues (standardSteps s d t blocks)
      = List.range' (d + 1) (countType "dialogue" blocks)
    ∧ stepsTransitions (standardSteps s d t blocks)
      = List.range' (t + 1) (countType "transition" blocks)
  | s, d, t, [] => by
    simp [standardSteps, stepsScenes, stepsDialogues, stepsTransitions, countType]
  | s, d, t, [b] => by
    simp only [standardSteps, stepCounters]
    split_ifs with h1 h2 h3 <;>
      simp_all [stepsScenes, stepsDialogues, stepsTransitions, countType,
        List.filterMap_cons, List.range']
  | s, d, t, b :: nb :: rest => by
    by_cases hm : b.type = "parenthetical" ∧ nb.type = "dialogue"
    · have ih := standardSteps_nums s (d + 1) t rest
      have hbs : b.type ≠ "scene-heading" := by simp [hm.1]
      have hbd : b.type ≠ "dialogue" := by simp [hm.1]
      have hbt : b.type ≠ "transition" := by simp [hm.1]
      have hns : nb.type ≠ "scene-heading" := by simp [hm.2]
      have hnt : nb.type ≠ "transition" := by simp [hm.2]
      have hsome : handleParentheticalDialogue b (some nb)
          = some { nb with content := b.content ++ ' ' :: nb.content, type := "dialogue" } := by
        simp [handleParentheticalDialogue, hm.1, hm.2]
      simp only [standardSteps, hsome]
      simp only [stepsScenes, stepsDialogues, stepsTransitions, List.filterMap_cons] at ih ⊢
      simp only [countType, if_neg hbs, if_neg hbd, if_neg hbt, if_neg hns, if_neg hnt,
        hm.2, reduceIte, Nat.zero_add]
      refine ⟨by simpa using ih.1, ?_, by simpa using ih.2.2⟩
      rw [Nat.add_comm 1 (countType "dialogue" rest), List.range'_succ]
      simpa using ih.2.1
    · have hnone : handleParentheticalDialogue b (some nb) = none := by
        simp only [handleParentheticalDialogue]
        split
        · rename_i heq
          exact absurd heq hm
        · rfl
      have ih := fun s' d' t' => standardSteps_nums s' d' t' (nb :: rest)
      simp only [standardSteps, hnone, stepCounters]
      split_ifs with h1 h2 h3 <;>
        simp_all [stepsScenes, stepsDialogues, stepsTransitions, countType,
          List.filterMap_cons, cons_range']
  termination_by _ _ _ blocks => blocks.length
  decreasing_by all_goals (simp <;> omega)

theorem printableRender_nums (blocks : List Block) : ∀ (s d : ℕ),
    printableSceneNums (printableRender s d blocks)
      = List.range' s (countType "scene-heading" blocks)
    ∧ printableDialogueNums (printableRender s d blocks)
      = List.range' d (countType "dialogue" blocks) := by
  induction blocks with
  | nil => intro s d; simp [printableRender, printableSceneNums, printableDialogueNums, countType]
  | cons b rest ih =>
    intro s d
    simp only [printableRender]
    split_ifs with h1 h2 h3 h4 h5 h6 h7 <;>
      (try rcases h2 with h2 | h2) <;>
      simp_all [printableSceneNums, printableDialogueNums, countType,
        List.filterMap_cons, cons_range']

theorem range'_cons_sub {d fin : ℕ} (h : d + 1 ≤ fin) :
    d :: List.range' (d + 1) (fin - (d + 1)) = List.range' d (fin - d) := by
  rw [show fin - d = (fin - (d + 1)) + 1 by omega, List.range'_succ]

theorem sharpLines_nums (env : PdfEnv) (layout : SharpLayout) (btype : String) :
    ∀ (lines : List JStr) (y : ℤ) (d : ℕ) (isFirst : Bool),
    recDialogueNums (sharpLines env layout btype lines y d isFirst).1
      = List.range' d ((sharpLines env layout btype lines y d isFirst).2.2 - d)
    ∧ d ≤ (sharpLines env layout btype lines y d isFirst).2.2 := by
  intro lines
  induction lines with
  | nil => intro y d isFirst; simp [sharpLines, recDialogueNums]
  | cons l rest ih =>
    intro y d isFirst
    by_cases hblank : jsTrim l = []
    · simp only [sharpLines, if_pos hblank]
      exact ih y d false
    · by_cases hdlg : btype = "dialogue" ∧ isFirst = true
      · simp only [sharpLines, if_neg hblank, if_pos hdlg]
        obtain ⟨ih1, ih2⟩ :=
          ih ((if ¬ willTextFitOnPage y 1 then MARGIN_TOP else y) + LINE_HEIGHT) (d + 1) false
        refine ⟨?_, Nat.le_of_succ_le ih2⟩
        simp only [recDialogueNums, List.filterMap_cons, List.filterMap_append] at ih1 ⊢
        rw [ih1]
        exact range'_cons_sub ih2
      · simp only [sharpLines, if_neg hblank, if_neg hdlg]
        have := ih ((if ¬ willTextFitOnPage y 1 then MARGIN_TOP else y) + LINE_HEIGHT) d false
        simpa [recDialogueNums, List.filterMap_cons] using this

theorem recNums_glue {A B : List Rec} {d d2 k : ℕ}
    (hA : recDialogueNums A = List.range' d (d2 - d)) (hd : d ≤ d2)
    (hB : recDialogueNums B = List.range' d2 k) :
    recDialogueNums (A ++ B) = List.range' d ((d2 - d) + k) := by
  unfold recDialogueNums at hA hB ⊢
  rw [List.filterMap_append, hA, hB,
    show List.range' d2 k = List.range' (d + (d2 - d)) k by rw [show d + (d2 - d) = d2 by omega],
    List.range'_append_1, Nat.add_comm]

theorem exportSharpLoop_nums (env : PdfEnv) :
    ∀ (blocks : List Block) (y : ℤ) (d s : ℕ),
    ∃ k, recDialogueNums (exportSharpLoop env blocks y d s) = List.range' d k := by
  intro blocks
  induction blocks with
  | nil => intro y d s; exact ⟨0, by simp [exportSharpLoop, recDialogueNums]⟩
  | cons b rest ih =>
    intro y d s
    by_cases hblank : jsTrim b.content = []
    · simp only [exportSharpLoop, if_pos hblank]
      exact ih y d s
    · simp only [exportSharpLoop, if_neg hblank]
      exact ⟨_, recNums_glue (sharpLines_nums env _ _ _ _ _ _).1
        (sharpLines_nums env _ _ _ _ _ _).2 (ih _ _ _).choose_spec⟩

/-- C3: in `exportToStandardPDF` the scene numbers passed to the renderer
for scene headings are exactly 1, 2, 3, … in block order, and likewise,
independently, the dialogue numbers (merged parenthetical+dialogue blocks
counting as the dialogue they contain) and the transition numbers; no
block of another type moves a counter, and each export invocation starts
from fresh zero counters (`range' 1 n` being `[1, …, n]`).  In the sharp
exporter (`exportToPDF`), the emitted dialogue-number labels likewise read
1, 2, 3, … in order. -/
theorem counters_consecutive (blocks : List Block) :
    stepsScenes (standardSteps 0 0 0 blocks)
      = List.range' 1 (countType "scene-heading" blocks)
    ∧ stepsDialogues (standardSteps 0 0 0 blocks)
      = List.range' 1 (countType "dialogue" blocks)
    ∧ stepsTransitions (standardSteps 0 0 0 blocks)
      = List.range' 1 (countType "transition" blocks)
    ∧ ∀ env : PdfEnv, ∃ k,
        recDialogueNums (exportSharpRecords env blocks) = List.range' 1 k := by
  obtain ⟨h1, h2, h3⟩ := standardSteps_nums 0 0 0 blocks
  exact ⟨h1, h2, h3, fun env => by
    simpa [exportSharpRecords] using exportSharpLoop_nums env blocks MARGIN_TOP 1 1⟩

/-- C6 (amended): the flow backend does agree with the direct-draw engine
on numbering — both hand the k-th scene heading the number k and the k-th
dialogue block the number k — but the parenthetical merge is not shared:
`PrintableScreenplay` renders parentheticals as separate elements (see the
counterexample), so the backends disagree on which blocks exist. -/
theorem backend_numbering_agrees (blocks : List Block) :
    printableSceneNums (printableScreenplay blocks)
      = stepsScenes (standardSteps 0 0 0 blocks)
    ∧ printableDialogueNums (printableScreenplay blocks)
      = stepsDialogues (standardSteps 0 0 0 blocks) := by
  obtain ⟨p1, p2⟩ := printableRender_nums blocks 1 1
  obtain ⟨s1, s2, _⟩ := standardSteps_nums 0 0 0 blocks
  constructor
  · rw [printableScreenplay, p1, s1]
  · rw [printableScreenplay, p2, s2]

theorem getLineHeight_cases (t : JStr) : getLineHeight t = 1440 ∨ getLineHeight t = 1584 := by
  unfold getLineHeight
  split
  · exact Or.inr rfl
  · exact Or.inl rfl

theorem stdLayout_spaceAfter_nonneg (t : String) : 0 ≤ (stdLayoutFor t).spaceAfter := by
  unfold stdLayoutFor
  split_ifs <;> simp [LINE_HEIGHT]

theorem renderStdLines_bounds (env : PdfEnv) (layout : StdLayout) (btype : String)
    (dn tn : Option ℕ) (lh fx : ℤ) (hlh : lh = 1440 ∨ lh = 1584) :
    ∀ (lines : List JStr) (y : ℤ), MARGIN_TOP ≤ y →
    (∀ r ∈ (renderStdLines env layout btype dn tn lh fx lines y).1,
        MARGIN_TOP ≤ r.y ∧ r.y ≤ PAGE_HEIGHT - MARGIN_BOTTOM - 1440)
    ∧ MARGIN_TOP ≤ (renderStdLines env layout btype dn tn lh fx lines y).2 := by
  intro lines
  induction lines with
  | nil => intro y hy; exact ⟨by simp [renderStdLines], by simpa [renderStdLines] using hy⟩
  | cons l rest ihl =>
    intro y hy
    simp only [renderStdLines]
    set y1 := (if y > PAGE_HEIGHT - MARGIN_BOTTOM - lh then MARGIN_TOP else y) with hy1def
    have hb : MARGIN_TOP ≤ y1 ∧ y1 ≤ PAGE_HEIGHT - MARGIN_BOTTOM - 1440 := by
      rw [hy1def]
      rcases hlh with h | h <;> (subst h; split_ifs with hc <;>
        (simp_all [MARGIN_TOP, PAGE_HEIGHT, MARGIN_BOTTOM]; try omega))
    obtain ⟨ih1, ih2⟩ := ihl (y1 + lh) (by rcases hlh with h | h <;> omega)
    constructor
    · intro r hr
      simp only [List.mem_cons, List.mem_append] at hr
      rcases hr with ((rfl | hr) | hr) | hr
      · exact hb
      · revert hr
        split_ifs with hc
        · cases dn with
          | none => simp
          | some n =>
            intro hr
            simp only [List.mem_singleton] at hr
            subst hr
            exact hb
        · simp
      · revert hr
        split_ifs with hc
        · cases tn with
          | none => simp
          | some n =>
            intro hr
            simp only [List.mem_singleton] at hr
            subst hr
            exact hb
        · simp
      · exact ih1 r hr
    · exact ih2

theorem renderStandardBlock_bounds (env : PdfEnv) (block : Block) (y : ℤ)
    (sn dn tn : Option ℕ) (hy : MARGIN_TOP ≤ y) :
    (∀ r ∈ (renderStandardBlock env block y sn dn tn).1,
        MARGIN_TOP ≤ r.y
        ∧ (r.isSceneLabel = false → r.y ≤ PAGE_HEIGHT - MARGIN_BOTTOM - 1440))
    ∧ MARGIN_TOP ≤ (renderStandardBlock env block y sn dn tn).2 := by
  obtain ⟨hl1, hl2⟩ := renderStdLines_bounds env (stdLayoutFor block.type) block.type dn tn
    (getLineHeight (stdBlockText env.nfc block))
    (if (stdLayoutFor block.type).rightAlign then
        MARGIN_LEFT + CONTENT_WIDTH - env.widthOf (stdBlockText env.nfc block)
      else MARGIN_LEFT + (stdLayoutFor block.type).marginLeft + (stdLayoutFor block.type).indent)
    (getLineHeight_cases _)
    (env.split (processTextForPDFSimple env.nfc (stdBlockText env.nfc block))
      (CONTENT_WIDTH - (stdLayoutFor block.type).marginLeft - (stdLayoutFor block.type).indent))
    y hy
  constructor
  · intro r hr
    simp only [renderStandardBlock, List.mem_append] at hr
    rcases hr with hr | hr
    · revert hr
      split_ifs with hc
      · cases sn with
        | none => simp
        | some n =>
          intro hr
          simp only [List.mem_singleton] at hr
          subst hr
          exact ⟨hy, by intro hfalse; simp [Rec.isSceneLabel] at hfalse⟩
      · simp
    · exact ⟨(hl1 r hr).1, fun _ => (hl1 r hr).2⟩
  · have := stdLayout_spaceAfter_nonneg block.type
    simp only [renderStandardBlock]
    omega

theorem runStandardRender_bounds (env : PdfEnv) :
    ∀ (steps : List Step) (y : ℤ), MARGIN_TOP ≤ y →
    ∀ r ∈ runStandardRender env y steps,
      MARGIN_TOP ≤ r.y
      ∧ (r.isSceneLabel = false → r.y ≤ PAGE_HEIGHT - MARGIN_BOTTOM - 1440) := by
  intro steps
  induction steps with
  | nil => intro y hy r hr; simp [runStandardRender] at hr
  | cons st rest ih =>
    intro y hy r hr
    simp only [runStandardRender, List.mem_append] at hr
    obtain ⟨hb1, hb2⟩ := renderStandardBlock_bounds env st.block y st.scene st.dialogue st.transition hy
    rcases hr with hr | hr
    · exact hb1 r hr
    · exact ih _ hb2 r hr

theorem sharpLines_bounds (env : PdfEnv) (layout : SharpLayout) (btype : String) :
    ∀ (lines : List JStr) (y : ℤ) (d : ℕ) (isFirst : Bool), MARGIN_TOP ≤ y →
    (∀ r ∈ (sharpLines env layout btype lines y d isFirst).1,
        MARGIN_TOP ≤ r.y ∧ r.y ≤ PAGE_HEIGHT - MARGIN_BOTTOM)
    ∧ MARGIN_TOP ≤ (sharpLines env layout btype lines y d isFirst).2.1 := by
  intro lines
  induction lines with
  | nil => intro y d isFirst hy; exact ⟨by simp [sharpLines], by simpa [sharpLines] using hy⟩
  | cons l rest ihl =>
    intro y d isFirst hy
    by_cases hblank : jsTrim l = []
    · simp only [sharpLines, if_pos hblank]
      exact ihl y d false hy
    · by_cases hdlg : btype = "dialogue" ∧ isFirst = true
      · simp only [sharpLines, if_neg hblank, if_pos hdlg]
        set y1 := (if ¬ willTextFitOnPage y 1 then MARGIN_TOP else y) with hy1def
        have hb : MARGIN_TOP ≤ y1 := by
          rw [hy1def]
          split_ifs <;> omega
        have hclamp : ∀ x w : ℤ, MARGIN_TOP ≤ (validateTextPosition x y1 w).2
            ∧ (validateTextPosition x y1 w).2 ≤ PAGE_HEIGHT - MARGIN_BOTTOM := by
          intro x w
          unfold validateTextPosition
          simp only [MARGIN_TOP, PAGE_HEIGHT, MARGIN_BOTTOM] at hb ⊢
          split_ifs <;> omega
        obtain ⟨ih1, ih2⟩ := ihl (y1 + LINE_HEIGHT) (d + 1) false
          (by simp only [MARGIN_TOP, LINE_HEIGHT] at hb ⊢; omega)
        constructor
        · intro r hr
          simp only [List.mem_cons, List.mem_append, List.mem_singleton,
            List.not_mem_nil, or_false] at hr
          rcases hr with (rfl | rfl) | hr
          · exact hclamp
              (if layout.alignRight = true then
                PAGE_WIDTH - MARGIN_RIGHT - env.widthOf (processTextForPDFSharp env.nfc (jsTrim l))
              else MARGIN_LEFT + layout.marginLeft)
              (env.widthOf (processTextForPDFSharp env.nfc (jsTrim l)))
          · exact hclamp
              (PAGE_WIDTH - MARGIN_RIGHT - env.widthOf (processTextForPDFSharp env.nfc (js (toString d))))
              (env.widthOf (processTextForPDFSharp env.nfc (js (toString d))))
          · exact ih1 r hr
        · exact ih2
      · simp only [sharpLines, if_neg hblank, if_neg hdlg]
        set y1 := (if ¬ willTextFitOnPage y 1 then MARGIN_TOP else y) with hy1def
        have hb : MARGIN_TOP ≤ y1 := by
          rw [hy1def]
          split_ifs <;> omega
        have hclamp : ∀ x w : ℤ, MARGIN_TOP ≤ (validateTextPosition x y1 w).2
            ∧ (validateTextPosition x y1 w).2 ≤ PAGE_HEIGHT - MARGIN_BOTTOM := by
          intro x w
          unfold validateTextPosition
          simp only [MARGIN_TOP, PAGE_HEIGHT, MARGIN_BOTTOM] at hb ⊢
          split_ifs <;> omega
        obtain ⟨ih1, ih2⟩ := ihl (y1 + LINE_HEIGHT) d false
          (by simp only [MARGIN_TOP, LINE_HEIGHT] at hb ⊢; omega)
        constructor
        · intro r hr
          simp only [List.mem_cons, List.mem_append, List.not_mem_nil, or_false] at hr
          rcases hr with rfl | hr
          · exact hclamp
              (if layout.alignRight = true then
                PAGE_WIDTH - MARGIN_RIGHT - env.widthOf (processTextForPDFSharp env.nfc (jsTrim l))
              else MARGIN_LEFT + layout.marginLeft)
              (env.widthOf (processTextForPDFSharp env.nfc (jsTrim l)))
          · exact ih1 r hr
        · exact ih2

theorem sharpStep_bounds (env : PdfEnv) {L : SharpLayout} {B : String} {lines : List JStr}
    {y0 : ℤ} {d : ℕ} (hy0 : MARGIN_TOP ≤ y0) :
    (∀ r ∈ (sharpLines env L B lines y0 d true).1,
        MARGIN_TOP ≤ r.y ∧ r.y ≤ PAGE_HEIGHT - MARGIN_BOTTOM)
    ∧ MARGIN_TOP ≤ (sharpLines env L B lines y0 d true).2.1 + 720 := by
  obtain ⟨h1, h2⟩ := sharpLines_bounds env L B lines y0 d true hy0
  exact ⟨h1, by omega⟩

theorem exportSharpLoop_bounds (env : PdfEnv) :
    ∀ (blocks : List Block) (y : ℤ) (d s : ℕ), MARGIN_TOP ≤ y →
    ∀ r ∈ exportSharpLoop env blocks y d s,
      MARGIN_TOP ≤ r.y ∧ r.y ≤ PAGE_HEIGHT - MARGIN_BOTTOM := by
  intro blocks
  induction blocks with
  | nil => intro y d s hy r hr; simp [exportSharpLoop] at hr
  | cons b rest ih =>
    intro y d s hy r hr
    by_cases hblank : jsTrim b.content = []
    · simp only [exportSharpLoop, if_pos hblank] at hr
      exact ih y d s hy r hr
    · simp only [exportSharpLoop, if_neg hblank] at hr
      rcases List.mem_append.mp hr with hr | hr
      · refine ((sharpStep_bounds env ?_).1) r hr
        unfold addPageBreakIfNeeded
        split_ifs <;> omega
      · refine ih _ _ _ ((sharpStep_bounds env ?_).2) r hr
        unfold addPageBreakIfNeeded
        split_ifs <;> omega

/-- C1 (amended): in `exportToStandardPDF`, every wrapped content line and
every dialogue/transition number label lands inside the vertical content
band — `topMargin ≤ y ≤ pageHeight − bottomMargin − lineHeight` — because
the engine rolls to a new page before emitting a line that would cross the
bottom margin; every record, scene-number margin labels included, sits at
or below the top margin.  The scene-number labels alone are drawn at the
pre-check cursor and may fall below the bottom margin (see the
counterexample).  The sharp exporter (`exportToPDF` of
src/unnamed/part_001) keeps every record, labels included, within
`topMargin ≤ y ≤ pageHeight − bottomMargin`, thanks to its per-line fit
checks and `validateTextPosition` clamp. -/
theorem page_bound_invariant :
    (∀ (env : PdfEnv) (blocks : List Block), ∀ r ∈ exportStandardRecords env blocks,
        MARGIN_TOP ≤ r.y
        ∧ (r.isSceneLabel = false → r.y ≤ PAGE_HEIGHT - MARGIN_BOTTOM - LINE_HEIGHT))
    ∧ (∀ (env : PdfEnv) (blocks : List Block), ∀ r ∈ exportSharpRecords env blocks,
        MARGIN_TOP ≤ r.y ∧ r.y ≤ PAGE_HEIGHT - MARGIN_BOTTOM) := by
  constructor
  · intro env blocks r hr
    have h := runStandardRender_bounds env (standardSteps 0 0 0 blocks) MARGIN_TOP le_rfl r
      (by simpa [exportStandardRecords] using hr)
    simpa [LINE_HEIGHT] using h
  · intro env blocks r hr
    exact exportSharpLoop_bounds env blocks MARGIN_TOP 1 1 le_rfl r
      (by simpa [exportSharpRecords] using hr)

/-- Witness for C1's amended theorem at a concrete export: the single line
record of a one-block document sits at the top margin, within bounds. -/
theorem page_bound_invariant_witness :
    (Rec.mk .line (js "a") 8500 6800) ∈ exportStandardRecords envSimple [⟨"a", "action", js "a"⟩]
    ∧ MARGIN_TOP ≤ (6800 : ℤ)
    ∧ (6800 : ℤ) ≤ PAGE_HEIGHT - MARGIN_BOTTOM - LINE_HEIGHT := by
  refine ⟨by decide, ?_, ?_⟩
  · exact (page_bound_invariant.1 envSimple [⟨"a", "action", js "a"⟩]
      (Rec.mk .line (js "a") 8500 6800) (by decide)).1
  · exact (page_bound_invariant.1 envSimple [⟨"a", "action", js "a"⟩]
      (Rec.mk .line (js "a") 8500 6800) (by decide)).2 rfl

/-- C9 (amended): a block whose content wraps to zero lines emits no line
records, but the cursor still advances by the layout's `spaceAfter` (a
full line height for action / scene-heading / dialogue / transition
blocks, zero for character / parenthetical), and an empty scene heading
still emits its scene-number record at the incoming cursor; in
`exportToStandardPDF` the counters are bumped before rendering regardless
of content (shown here for a dialogue block), while `exportToPDF`
(src/unnamed/part_001) skips whitespace-only blocks outright — no records,
no cursor movement, no counter change. -/
theorem zero_line_block_effect :
    (∀ (env : PdfEnv) (block : Block) (y : ℤ) (sn dn tn : Option ℕ),
      env.split (processTextForPDFSimple env.nfc (stdBlockText env.nfc block))
          (CONTENT_WIDTH - (stdLayoutFor block.type).marginLeft
            - (stdLayoutFor block.type).indent) = [] →
      (renderStandardBlock env block y sn dn tn).2 = y + (stdLayoutFor block.type).spaceAfter
      ∧ (block.type ≠ "scene-heading" → (renderStandardBlock env block y sn dn tn).1 = [])
      ∧ (∀ n, block.type = "scene-heading" → sn = some n →
          (renderStandardBlock env block y sn dn tn).1
            = [Rec.mk (.sceneLabel n) (js (toString n)) SCENE_NUMBER_X y]))
    ∧ (∀ (s d t : ℕ) (b : Block) (rest : List Block), b.type = "dialogue" →
        (standardSteps s d t (b :: rest)).head? = some ⟨b, none, some (d + 1), none⟩)
    ∧ (∀ (env : PdfEnv) (b : Block) (rest : List Block) (y : ℤ) (d s : ℕ),
        jsTrim b.content = [] →
        exportSharpLoop env (b :: rest) y d s = exportSharpLoop env rest y d s) := by
  refine ⟨?_, ?_, ?_⟩
  · intro env block y sn dn tn hsplit
    refine ⟨?_, ?_, ?_⟩
    · simp [renderStandardBlock, hsplit, renderStdLines]
    · intro hne
      simp [renderStandardBlock, hsplit, renderStdLines, hne]
    · intro n hsc hsn
      rw [hsc] at hsplit
      simp [renderStandardBlock, hsplit, renderStdLines, hsc, hsn]
  · intro s d t b rest hb
    have hnp : b.type ≠ "parenthetical" := by simp [hb]
    cases rest with
    | nil =>
      simp [standardSteps, stepCounters, hb, show ("dialogue" : String) ≠ "scene-heading" by decide]
    | cons nb rest' =>
      have hnone : handleParentheticalDialogue b (some nb) = none := by
        simp [handleParentheticalDialogue, hnp]
      simp [standardSteps, hnone, stepCounters, hb,
        show ("dialogue" : String) ≠ "scene-heading" by decide]
  · intro env b rest y d s hblank
    simp [exportSharpLoop, hblank]

/-- Witness for C9's amended theorem: the empty action block wraps to zero
lines under the fallback wrap, and rendering it advances the cursor by
exactly its `spaceAfter`. -/
theorem zero_line_block_effect_witness :
    envSimple.split
        (processTextForPDFSimple envSimple.nfc (stdBlockText envSimple.nfc ⟨"e", "action", js ""⟩))
        (CONTENT_WIDTH - (stdLayoutFor "action").marginLeft - (stdLayoutFor "action").indent) = []
    ∧ (renderStandardBlock envSimple ⟨"e", "action", js ""⟩ 6800 none none none).2
        = 6800 + (stdLayoutFor "action").spaceAfter := by
  refine ⟨by decide, ?_⟩
  exact (zero_line_block_effect.1 envSimple ⟨"e", "action", js ""⟩ 6800 none none none
    (by decide)).1

theorem standardSteps_merge_step (s d t : ℕ) (p dlgB : Block) (rest : List Block)
    (hp : p.type = "parenthetical") (hd : dlgB.type = "dialogue") :
    standardSteps s d t (p :: dlgB :: rest)
      = ⟨{ dlgB with content := p.content ++ ' ' :: dlgB.content, type := "dialogue" },
          none, some (d + 1), none⟩ :: standardSteps s (d + 1) t rest := by
  have hsome : handleParentheticalDialogue p (some dlgB)
      = some { dlgB with content := p.content ++ ' ' :: dlgB.content, type := "dialogue" } := by
    simp [handleParentheticalDialogue, hp, hd]
  simp [standardSteps, hsome]

theorem standardSteps_split : ∀ (s d t : ℕ) (pre : List Block) (p : Block) (tail : List Block),
    p.type = "parenthetical" →
    standardSteps s d t (pre ++ p :: tail)
      = standardSteps s d t pre
        ++ standardSteps (s + countType "scene-heading" pre) (d + countType "dialogue" pre)
            (t + countType "transition" pre) (p :: tail)
  | s, d, t, [], p, tail, hp => by
    simp [standardSteps, countType]
  | s, d, t, [b], p, tail, hp => by
    have hnone : handleParentheticalDialogue b (some p) = none := by
      simp only [handleParentheticalDialogue]
      split
      · rename_i heq
        exact absurd (hp ▸ heq.2) (by decide)
      · rfl
    simp only [List.cons_append, List.nil_append, standardSteps, hnone]
    unfold stepCounters
    split_ifs with h1 h2 h3 <;>
      simp_all [standardSteps, countType, stepCounters]
  | s, d, t, b :: nb :: pre', p, tail, hp => by
    by_cases hm : b.type = "parenthetical" ∧ nb.type = "dialogue"
    · have hstep := standardSteps_merge_step s d t b nb (pre' ++ p :: tail) hm.1 hm.2
      have hstep2 := standardSteps_merge_step s d t b nb pre' hm.1 hm.2
      have ih := standardSteps_split s (d + 1) t pre' p tail hp
      have hbd : b.type ≠ "dialogue" := by simp [hm.1]
      have hbs : b.type ≠ "scene-heading" := by simp [hm.1]
      have hbt : b.type ≠ "transition" := by simp [hm.1]
      have hns : nb.type ≠ "scene-heading" := by simp [hm.2]
      have hnt : nb.type ≠ "transition" := by simp [hm.2]
      simp only [List.cons_append, hstep, hstep2, ih, List.cons_append]
      simp [countType, hbd, hbs, hbt, hns, hnt, hm.2, Nat.add_assoc, Nat.add_comm 1]
    · have hnone : handleParentheticalDialogue b (some nb) = none := by
        simp only [handleParentheticalDialogue]
        split
        · rename_i heq
          exact absurd heq hm
        · rfl
      have ih := fun s' d' t' => standardSteps_split s' d' t' (nb :: pre') p tail hp
      simp only [List.cons_append, standardSteps, hnone]
      unfold stepCounters
      split_ifs with h1 h2 h3 <;>
        simp_all [standardSteps, countType, stepCounters, Nat.add_assoc, Nat.add_comm 1]
  termination_by _ _ _ pre _ _ _ => pre.length
  decreasing_by all_goals (simp <;> omega)

/-- C2 (amended): in `exportToStandardPDF`, a parenthetical block
immediately followed by a dialogue block is rendered as exactly one
combined block of type dialogue whose content is `parenthetical.content ++
" " ++ dialogue.content`, replacing both originals, and the dialogue
counter is bumped exactly once for it — the attached number is one more
than the number of dialogue blocks before it; a parenthetical not followed
by a dialogue is planned unmerged, with no number.  In
`exportToEnhancedStandardPDF`, however, the combined block is attached the
dialogue counter's value from before any increment (see the
counterexample). -/
theorem merge_law :
    (∀ (pre : List Block) (p dlgB : Block) (post : List Block),
      p.type = "parenthetical" → dlgB.type = "dialogue" →
      standardSteps 0 0 0 (pre ++ p :: dlgB :: post)
        = standardSteps 0 0 0 pre
          ++ ⟨{ dlgB with content := p.content ++ ' ' :: dlgB.content, type := "dialogue" },
                none, some (countType "dialogue" pre + 1), none⟩
            :: standardSteps (countType "scene-heading" pre) (countType "dialogue" pre + 1)
                (countType "transition" pre) post)
    ∧ (∀ (s d t : ℕ) (p : Block) (rest : List Block), p.type = "parenthetical" →
        (∀ nb, rest.head? = some nb → nb.type ≠ "dialogue") →
        (standardSteps s d t (p :: rest)).head? = some ⟨p, none, none, none⟩) := by
  constructor
  · intro pre p dlgB post hp hd
    rw [standardSteps_split 0 0 0 pre p (dlgB :: post) hp,
      standardSteps_merge_step _ _ _ p dlgB post hp hd]
    simp
  · intro s d t p rest hp hnd
    have hps : p.type ≠ "scene-heading" := by simp [hp]
    have hpd : p.type ≠ "dialogue" := by simp [hp]
    have hpt : p.type ≠ "transition" := by simp [hp]
    cases rest with
    | nil => simp [standardSteps, stepCounters, hps, hpd, hpt]
    | cons nb rest' =>
      have hnone : handleParentheticalDialogue p (some nb) = none := by
        simp [handleParentheticalDialogue, hnd nb rfl]
      simp [standardSteps, hnone, stepCounters, hps, hpd, hpt]

/-- Witness for C2's amended theorem on a concrete sequence: merging
`(x)` into `hi` after one earlier dialogue yields the combined dialogue
numbered 2, and a trailing lone parenthetical stays unmerged. -/
theorem merge_law_witness :
    standardSteps 0 0 0
        [⟨"d0", "dialogue", js "yo"⟩, ⟨"p", "parenthetical", js "(x)"⟩, ⟨"d", "dialogue", js "hi"⟩]
      = standardSteps 0 0 0 [⟨"d0", "dialogue", js "yo"⟩]
        ++ ⟨⟨"d", "dialogue", js "(x) hi"⟩, none, some 2, none⟩
          :: standardSteps 0 2 0 []
    ∧ (standardSteps 0 0 0 [⟨"p2", "parenthetical", js "(y)"⟩]).head?
        = some ⟨⟨"p2", "parenthetical", js "(y)"⟩, none, none, none⟩ := by
  constructor
  · have h := merge_law.1 [⟨"d0", "dialogue", js "yo"⟩] ⟨"p", "parenthetical", js "(x)"⟩
      ⟨"d", "dialogue", js "hi"⟩ [] rfl rfl
    simpa using h
  · exact merge_law.2 0 0 0 ⟨"p2", "parenthetical", js "(y)"⟩ [] rfl (by simp)

/-- C5 (amended): in the direct-draw engine (`renderStandardBlock`), a
block whose processed content contains a Thai codepoint is never
uppercased — even for uppercase-typed blocks with mixed Thai+Latin
content — while a Thai-free block of an uppercase type is uppercased.  The
flow backend (`PrintableScreenplay`), by contrast, applies `toUpperCase`
unconditionally to scene headings (and character / shot / transition
blocks); this leaves Thai codepoints themselves unchanged, Thai having no
case, but uppercases the Latin letters of mixed content (see the
counterexample). -/
theorem thai_uppercase_exemption :
    (∀ (nfc : JStr → JStr) (b : Block),
      containsThaiText (processTextForPDFSimple nfc b.content) = true →
      stdBlockText nfc b = processTextForPDFSimple nfc b.content)
    ∧ (∀ (nfc : JStr → JStr) (b : Block),
      (stdLayoutFor b.type).uppercase = true →
      containsThaiText (processTextForPDFSimple nfc b.content) = false →
      stdBlockText nfc b = upperJS (processTextForPDFSimple nfc b.content))
    ∧ (∀ c : Char, isThaiChar c = true → upperChar c = c)
    ∧ (∀ (s d : ℕ) (b : Block) (rest : List Block), b.type = "scene-heading" →
        (printableRender s d (b :: rest)).head?
          = some ⟨"scene-line", upperJS b.content, some s⟩) := by
  refine ⟨?_, ?_, ?_, ?_⟩
  · intro nfc b h
    simp [stdBlockText, h]
  · intro nfc b h1 h2
    simp [stdBlockText, h1, h2]
  · intro c hc
    unfold upperChar
    unfold isThaiChar at hc
    simp only [Bool.and_eq_true, decide_eq_true_eq] at hc
    rw [if_neg]
    simp only [Bool.and_eq_true, decide_eq_true_eq, not_and]
    omega
  · intro s d b rest hb
    simp [printableRender, hb]

/-- Witness for C5's amended theorem: a mixed `"aก"` scene heading passes
through the direct-draw text pipeline un-uppercased, a pure-Latin `"int"`
scene heading is uppercased, and the Thai letter ก is a fixed point of the
uppercase map. -/
theorem thai_uppercase_exemption_witness :
    containsThaiText (processTextForPDFSimple nfcModel (js "aก")) = true
    ∧ stdBlockText nfcModel ⟨"s", "scene-heading", js "aก"⟩
        = processTextForPDFSimple nfcModel (js "aก")
    ∧ (stdLayoutFor "scene-heading").uppercase = true
    ∧ stdBlockText nfcModel ⟨"t", "scene-heading", js "int"⟩
        = upperJS (processTextForPDFSimple nfcModel (js "int"))
    ∧ isThaiChar 'ก' = true
    ∧ upperChar 'ก' = 'ก' := by
  refine ⟨by decide, ?_, by decide, ?_, by decide, ?_⟩
  · exact thai_uppercase_exemption.1 nfcModel ⟨"s", "scene-heading", js "aก"⟩ (by decide)
  · exact thai_uppercase_exemption.2.1 nfcModel ⟨"t", "scene-heading", js "int"⟩
      (by decide) (by decide)
  · exact thai_uppercase_exemption.2.2.1 'ก' (by decide)

theorem mem_collapseSpaces : ∀ {l : JStr} {c : Char}, c ∈ collapseSpaces l → c ∈ l ∨ c = ' '
  | [], c, h => by simp [collapseSpaces] at h
  | [a], c, h => by
    unfold collapseSpaces at h
    split_ifs at h <;> simp_all
  | a :: b :: rest, c, h => by
    unfold collapseSpaces at h
    split_ifs at h with h1 h2
    · rcases mem_collapseSpaces h with hm | hm
      · exact Or.inl (List.mem_cons_of_mem a hm)
      · exact Or.inr hm
    · rcases List.mem_cons.mp h with rfl | h
      · exact Or.inr rfl
      · rcases mem_collapseSpaces h with hm | hm
        · exact Or.inl (List.mem_cons_of_mem a hm)
        · exact Or.inr hm
    · rcases List.mem_cons.mp h with rfl | h
      · exact Or.inl (List.mem_cons_self _ _)
      · rcases mem_collapseSpaces h with hm | hm
        · exact Or.inl (List.mem_cons_of_mem a hm)
        · exact Or.inr hm

theorem mem_insertSpaceBetween {p q : Char → Bool} :
    ∀ {l : JStr} {c : Char}, c ∈ insertSpaceBetween p q l → c ∈ l ∨ c = ' '
  | [], c, h => by simp [insertSpaceBetween] at h
  | [a], c, h => by simpa [insertSpaceBetween] using Or.inl h
  | a :: b :: rest, c, h => by
    unfold insertSpaceBetween at h
    split_ifs at h with h1
    · rcases List.mem_cons.mp h with rfl | h
      · exact Or.inl (List.mem_cons_self _ _)
      rcases List.mem_cons.mp h with rfl | h
      · exact Or.inr rfl
      rcases List.mem_cons.mp h with rfl | h
      · exact Or.inl (List.mem_cons_of_mem _ (List.mem_cons_self _ _))
      · rcases mem_insertSpaceBetween h with hm | hm
        · exact Or.inl (List.mem_cons_of_mem _ (List.mem_cons_of_mem _ hm))
        · exact Or.inr hm
    · rcases List.mem_cons.mp h with rfl | h
      · exact Or.inl (List.mem_cons_self _ _)
      · rcases mem_insertSpaceBetween h with hm | hm
        · exact Or.inl (List.mem_cons_of_mem a hm)
        · exact Or.inr hm

theorem subset_insertSpaceBetween {p q : Char → Bool} :
    ∀ {l : JStr} {c : Char}, c ∈ l → c ∈ insertSpaceBetween p q l
  | [], c, h => by simp at h
  | [a], c, h => by simpa [insertSpaceBetween] using h
  | a :: b :: rest, c, h => by
    unfold insertSpaceBetween
    split_ifs with h1
    · rcases List.mem_cons.mp h with rfl | h
      · exact List.mem_cons_self _ _
      rcases List.mem_cons.mp h with rfl | h
      · exact List.mem_cons_of_mem _ (List.mem_cons_of_mem _ (List.mem_cons_self _ _))
      · exact List.mem_cons_of_mem _ (List.mem_cons_of_mem _
          (List.mem_cons_of_mem _ (subset_insertSpaceBetween h)))
    · rcases List.mem_cons.mp h with rfl | h
      · exact List.mem_cons_self _ _
      · exact List.mem_cons_of_mem _ (subset_insertSpaceBetween h)

theorem mem_collapseSpaces_of_mem : ∀ {l : JStr} {c : Char},
    c ∈ l → isJsSpace c = false → c ∈ collapseSpaces l
  | [], c, h, hw => by simp at h
  | [a], c, h, hw => by
    rcases List.mem_cons.mp h with rfl | h
    · simp [collapseSpaces, hw]
    · simp at h
  | a :: b :: rest, c, h, hw => by
    unfold collapseSpaces
    split_ifs with h1 h2
    · rcases List.mem_cons.mp h with rfl | h
      · exact absurd h1 (by simp [hw])
      · exact mem_collapseSpaces_of_mem h hw
    · rcases List.mem_cons.mp h with rfl | h
      · exact absurd h2 (by simp [hw])
      · exact List.mem_cons_of_mem _ (mem_collapseSpaces_of_mem h hw)
    · rcases List.mem_cons.mp h with rfl | h
      · exact List.mem_cons_self _ _
      · exact List.mem_cons_of_mem _ (mem_collapseSpaces_of_mem h hw)

theorem mem_of_mem_dropWhile {p : Char → Bool} :
    ∀ {l : JStr} {c : Char}, c ∈ l.dropWhile p → c ∈ l := by
  intro l
  induction l with
  | nil => intro c h; simp at h
  | cons a rest ih =>
    intro c h
    rw [List.dropWhile_cons] at h
    split_ifs at h with h1
    · exact List.mem_cons_of_mem a (ih h)
    · exact h

theorem mem_dropWhile_of_not {p : Char → Bool} :
    ∀ {l : JStr} {c : Char}, c ∈ l → p c = false → c ∈ l.dropWhile p := by
  intro l
  induction l with
  | nil => intro c h _; simp at h
  | cons a rest ih =>
    intro c h hc
    rw [List.dropWhile_cons]
    split_ifs with h1
    · rcases List.mem_cons.mp h with rfl | h
      · rw [hc] at h1; exact absurd h1 (by simp)
      · exact ih h hc
    · exact h

theorem mem_of_mem_jsTrim {l : JStr} {c : Char} (h : c ∈ jsTrim l) : c ∈ l := by
  unfold jsTrim at h
  rw [List.mem_reverse] at h
  have h2 := mem_of_mem_dropWhile h
  rw [List.mem_reverse] at h2
  exact mem_of_mem_dropWhile h2

theorem mem_jsTrim_of_not_space {l : JStr} {c : Char}
    (h : c ∈ l) (hw : isJsSpace c = false) : c ∈ jsTrim l := by
  unfold jsTrim
  rw [List.mem_reverse]
  apply mem_dropWhile_of_not _ hw
  rw [List.mem_reverse]
  exact mem_dropWhile_of_not h hw

theorem collapseSpaces_head? : ∀ (l : JStr),
    (collapseSpaces l).head? = l.head?.map (fun c => if isJsSpace c then ' ' else c)
  | [] => rfl
  | [c] => by
    unfold collapseSpaces
    split_ifs with h <;> simp [h]
  | a :: b :: rest => by
    unfold collapseSpaces
    split_ifs with h1 h2
    · rw [collapseSpaces_head? (b :: rest)]
      simp_all
    · simp_all
    · simp_all

theorem insertSpaceBetween_head? (p q : Char → Bool) : ∀ (l : JStr),
    (insertSpaceBetween p q l).head? = l.head?
  | [] => rfl
  | [c] => rfl
  | a :: b :: rest => by
    unfold insertSpaceBetween
    split_ifs <;> simp

theorem chain'_collapseSpaces {R : Char → Char → Prop}
    (hR1 : ∀ a, R a ' ') (hR2 : ∀ b, R ' ' b) :
    ∀ {l : JStr}, List.Chain' R l → List.Chain' R (collapseSpaces l)
  | [], _ => by simp [collapseSpaces]
  | [c], _ => by
    unfold collapseSpaces
    split_ifs <;> simp
  | a :: b :: rest, h => by
    have htail : List.Chain' R (b :: rest) := (List.chain'_cons'.mp h).2
    have hpair : ∀ y ∈ (b :: rest).head?, R a y := (List.chain'_cons'.mp h).1
    unfold collapseSpaces
    split_ifs with h1 h2
    · exact chain'_collapseSpaces hR1 hR2 htail
    · rw [List.chain'_cons']
      refine ⟨?_, chain'_collapseSpaces hR1 hR2 htail⟩
      intro y hy
      rw [collapseSpaces_head? (b :: rest)] at hy
      simp only [Option.map, List.head?] at hy
      split_ifs at hy with hb
      · rw [Option.mem_def, Option.some.injEq] at hy
        subst hy
        exact hR2 _
      · rw [Option.mem_def, Option.some.injEq] at hy
        subst hy
        exact hR2 _
    · rw [List.chain'_cons']
      refine ⟨?_, chain'_collapseSpaces hR1 hR2 htail⟩
      intro y hy
      rw [collapseSpaces_head? (b :: rest)] at hy
      simp only [Option.map, List.head?] at hy
      split_ifs at hy with hb
      · rw [Option.mem_def, Option.some.injEq] at hy
        subst hy
        exact hR1 _
      · rw [Option.mem_def, Option.some.injEq] at hy
        subst hy
        exact hpair b (by simp)

theorem collapseSpaces_ws_eq_space : ∀ {l : JStr} {c : Char},
    c ∈ collapseSpaces l → isJsSpace c = true → c = ' '
  | [], c, h, _ => by simp [collapseSpaces] at h
  | [a], c, h, hw => by
    unfold collapseSpaces at h
    split_ifs at h with h1 <;> simp_all
  | a :: b :: rest, c, h, hw => by
    unfold collapseSpaces at h
    split_ifs at h with h1 h2
    · exact collapseSpaces_ws_eq_space h hw
    · rcases List.mem_cons.mp h with rfl | h
      · rfl
      · exact collapseSpaces_ws_eq_space h hw
    · rcases List.mem_cons.mp h with rfl | h
      · exact absurd hw h2
      · exact collapseSpaces_ws_eq_space h hw

theorem chain'_nws_collapseSpaces : ∀ (l : JStr),
    List.Chain' (fun a b => ¬(isJsSpace a = true ∧ isJsSpace b = true)) (collapseSpaces l)
  | [] => by simp [collapseSpaces]
  | [c] => by
    unfold collapseSpaces
    split_ifs <;> simp
  | a :: b :: rest => by
    unfold collapseSpaces
    split_ifs with h1 h2
    · exact chain'_nws_collapseSpaces (b :: rest)
    · rw [List.chain'_cons']
      refine ⟨?_, chain'_nws_collapseSpaces (b :: rest)⟩
      intro y hy
      rw [collapseSpaces_head? (b :: rest)] at hy
      simp only [Option.map, List.head?, Option.mem_def, Option.some.injEq] at hy
      have hb : isJsSpace b = false := by simp_all
      split_ifs at hy with hsb
      · simp_all
      · subst hy
        intro hcon
        simp_all
    · rw [List.chain'_cons']
      refine ⟨?_, chain'_nws_collapseSpaces (b :: rest)⟩
      intro y hy
      intro hcon
      simp_all

theorem collapseSpaces_eq_self : ∀ {l : JStr},
    List.Chain' (fun a b => ¬(isJsSpace a = true ∧ isJsSpace b = true)) l →
    (∀ c ∈ l, isJsSpace c = true → c = ' ') →
    collapseSpaces l = l
  | [], _, _ => rfl
  | [c], _, hws => by
    unfold collapseSpaces
    split_ifs with h1
    · rw [hws c (by simp) h1]
    · rfl
  | a :: b :: rest, hch, hws => by
    have htail := (List.chain'_cons'.mp hch).2
    have hpair := (List.chain'_cons'.mp hch).1 b (by simp)
    unfold collapseSpaces
    split_ifs with h1 h2
    · exact absurd (by simp_all : isJsSpace a = true ∧ isJsSpace b = true) hpair
    · rw [collapseSpaces_eq_self htail (fun c hc hw => hws c (List.mem_cons_of_mem a hc) hw),
        hws a (by simp) h2]
    · rw [collapseSpaces_eq_self htail (fun c hc hw => hws c (List.mem_cons_of_mem a hc) hw)]

theorem chain'_insert_fresh {p q : Char → Bool}
    (hdisj : ∀ c, q c = true → p c = false) (hsp : p ' ' = false) (hsq : q ' ' = false) :
    ∀ (l : JStr),
    List.Chain' (fun a b => ¬(p a = true ∧ q b = true)) (insertSpaceBetween p q l)
  | [] => by simp [insertSpaceBetween]
  | [c] => by simp [insertSpaceBetween]
  | a :: b :: rest => by
    unfold insertSpaceBetween
    split_ifs with h1
    · rw [List.chain'_cons']
      refine ⟨fun y hy => ?_, ?_⟩
      · simp only [List.head?, Option.mem_def, Option.some.injEq] at hy
        subst hy
        simp [hsq]
      rw [List.chain'_cons']
      refine ⟨fun y hy => ?_, ?_⟩
      · simp only [List.head?, Option.mem_def, Option.some.injEq] at hy
        subst hy
        simp [hsp]
      rw [List.chain'_cons']
      refine ⟨fun y hy => ?_, chain'_insert_fresh hdisj hsp hsq rest⟩
      · intro hcon
        have : q b = true := by simp_all
        rw [hdisj b this] at hcon
        simp_all
    · rw [List.chain'_cons']
      refine ⟨fun y hy => ?_, chain'_insert_fresh hdisj hsp hsq (b :: rest)⟩
      rw [insertSpaceBetween_head? p q (b :: rest)] at hy
      simp only [List.head?, Option.mem_def, Option.some.injEq] at hy
      subst hy
      intro hcon
      simp_all

theorem chain'_insert_preserve {p q : Char → Bool} {R : Char → Char → Prop}
    (hR1 : ∀ a, R a ' ') (hR2 : ∀ b, R ' ' b) :
    ∀ {l : JStr}, List.Chain' R l → List.Chain' R (insertSpaceBetween p q l)
  | [], _ => by simp [insertSpaceBetween]
  | [c], _ => by simp [insertSpaceBetween]
  | a :: b :: rest, h => by
    have htail := (List.chain'_cons'.mp h).2
    have htail2 := (List.chain'_cons'.mp htail).2
    have hpair := (List.chain'_cons'.mp h).1 b (by simp)
    have hpair2 := (List.chain'_cons'.mp htail).1
    unfold insertSpaceBetween
    split_ifs with h1
    · rw [List.chain'_cons']
      refine ⟨fun y hy => ?_, ?_⟩
      · simp only [List.head?, Option.mem_def, Option.some.injEq] at hy
        subst hy
        exact hR1 a
      rw [List.chain'_cons']
      refine ⟨fun y hy => ?_, ?_⟩
      · simp only [List.head?, Option.mem_def, Option.some.injEq] at hy
        subst hy
        exact hR2 b
      rw [List.chain'_cons']
      refine ⟨fun y hy => ?_, chain'_insert_preserve hR1 hR2 htail2⟩
      rw [insertSpaceBetween_head? p q rest] at hy
      exact hpair2 y hy
    · rw [List.chain'_cons']
      refine ⟨fun y hy => ?_, chain'_insert_preserve hR1 hR2 htail⟩
      rw [insertSpaceBetween_head? p q (b :: rest)] at hy
      simp only [List.head?, Option.mem_def, Option.some.injEq] at hy
      subst hy
      exact hpair

theorem insertSpaceBetween_eq_self {p q : Char → Bool} : ∀ {l : JStr},
    List.Chain' (fun a b => ¬(p a = true ∧ q b = true)) l →
    insertSpaceBetween p q l = l
  | [], _ => rfl
  | [c], _ => rfl
  | a :: b :: rest, h => by
    have htail := (List.chain'_cons'.mp h).2
    have hpair := (List.chain'_cons'.mp h).1 b (by simp)
    unfold insertSpaceBetween
    split_ifs with h1
    · exact absurd (by simp_all : p a = true ∧ q b = true) hpair
    · rw [insertSpaceBetween_eq_self htail]

theorem chain'_dropWhile {R : Char → Char → Prop} {p : Char → Bool} :
    ∀ {l : JStr}, List.Chain' R l → List.Chain' R (l.dropWhile p) := by
  intro l
  induction l with
  | nil => intro h; simp
  | cons a rest ih =>
    intro h
    rw [List.dropWhile_cons]
    split_ifs with h1
    · exact ih (List.Chain'.tail h)
    · exact h

theorem chain'_jsTrim {R : Char → Char → Prop} {l : JStr}
    (h : List.Chain' R l) : List.Chain' R (jsTrim l) := by
  unfold jsTrim
  rw [List.chain'_reverse]
  apply chain'_dropWhile
  rw [List.chain'_reverse]
  simpa using chain'_dropWhile h

theorem dropWhile_head_false {p : Char → Bool} : ∀ {l : JStr} {x : Char},
    (l.dropWhile p).head? = some x → p x = false := by
  intro l
  induction l with
  | nil => intro x h; simp at h
  | cons a rest ih =>
    intro x h
    rw [List.dropWhile_cons] at h
    split_ifs at h with h1
    · exact ih h
    · simp only [List.head?, Option.some.injEq] at h
      subst h
      simpa using h1

theorem dropWhile_getLast? {p : Char → Bool} : ∀ {l : JStr},
    l.dropWhile p ≠ [] → (l.dropWhile p).getLast? = l.getLast? := by
  intro l
  induction l with
  | nil => intro h; simp at h
  | cons a rest ih =>
    intro h
    rw [List.dropWhile_cons]
    rw [List.dropWhile_cons] at h
    split_ifs with h1
    · rw [if_pos h1] at h
      rw [ih h, List.getLast?_cons]
      cases hr : rest.getLast? with
      | none =>
        rw [List.getLast?_eq_none_iff] at hr
        subst hr
        simp at h
      | some z => simp [List.getLast?_cons, hr]
    · rfl

theorem jsTrim_head_false {l : JStr} {x : Char}
    (h : (jsTrim l).head? = some x) : isJsSpace x = false := by
  unfold jsTrim at h
  rw [List.head?_reverse] at h
  have hne : (l.dropWhile isJsSpace).reverse.dropWhile isJsSpace ≠ [] := by
    intro hcon
    rw [hcon] at h
    simp at h
  rw [dropWhile_getLast? hne, List.getLast?_reverse] at h
  exact dropWhile_head_false h

theorem jsTrim_getLast_false {l : JStr} {x : Char}
    (h : (jsTrim l).getLast? = some x) : isJsSpace x = false := by
  unfold jsTrim at h
  rw [List.getLast?_reverse] at h
  exact dropWhile_head_false h

theorem dropWhile_eq_self_of_head {p : Char → Bool} {l : JStr}
    (h : ∀ x, l.head? = some x → p x = false) : l.dropWhile p = l := by
  cases l with
  | nil => rfl
  | cons a rest =>
    rw [List.dropWhile_cons, if_neg]
    rw [h a rfl]
    simp

theorem jsTrim_eq_self {l : JStr}
    (h1 : ∀ x, l.head? = some x → isJsSpace x = false)
    (h2 : ∀ x, l.getLast? = some x → isJsSpace x = false) : jsTrim l = l := by
  unfold jsTrim
  rw [dropWhile_eq_self_of_head h1]
  rw [dropWhile_eq_self_of_head (fun x hx => h2 x (by rwa [List.head?_reverse] at hx))]
  exact List.reverse_reverse l

theorem thai_not_zw {c : Char} (h : isThaiChar c = true) : isZeroWidth c = false := by
  unfold isThaiChar at h
  unfold isZeroWidth
  simp only [Bool.and_eq_true, decide_eq_true_eq] at h
  simp only [Bool.or_eq_false_iff, Bool.and_eq_false_iff, decide_eq_false_iff_not, beq_eq_false_iff_ne]
  omega

theorem thai_not_ws {c : Char} (h : isThaiChar c = true) : isJsSpace c = false := by
  unfold isThaiChar at h
  unfold isJsSpace
  simp only [Bool.and_eq_true, decide_eq_true_eq] at h
  simp only [Bool.or_eq_false_iff, Bool.and_eq_false_iff, decide_eq_false_iff_not,
    beq_eq_false_iff_ne]
  omega

theorem thaiSpacing_not_alnum {c : Char} (h : isThaiSpacing c = true) : isAsciiAlnum c = false := by
  unfold isThaiSpacing at h
  unfold isAsciiAlnum
  simp only [Bool.and_eq_true, decide_eq_true_eq] at h
  simp only [Bool.or_eq_false_iff, Bool.and_eq_false_iff, decide_eq_false_iff_not, not_le]
  omega

theorem alnum_not_thaiSpacing {c : Char} (h : isAsciiAlnum c = true) : isThaiSpacing c = false := by
  unfold isAsciiAlnum at h
  unfold isThaiSpacing
  simp only [Bool.or_eq_true, Bool.and_eq_true, decide_eq_true_eq] at h
  simp only [Bool.and_eq_false_iff, decide_eq_false_iff_not, not_le]
  omega

theorem mem_simplePipe_source {m : JStr} {c : Char} (h : c ∈ simplePipe m) :
    c ∈ stripZeroWidth m ∨ c = ' ' := by
  unfold simplePipe at h
  have h1 := mem_of_mem_jsTrim h
  exact mem_collapseSpaces h1

theorem mem_sharpPipe_source {m : JStr} {c : Char} (h : c ∈ sharpPipe m) :
    c ∈ stripZeroWidth m ∨ c = ' ' := by
  unfold sharpPipe at h
  have h1 := mem_collapseSpaces (mem_of_mem_jsTrim h)
  rcases h1 with h1 | h1
  · rcases mem_insertSpaceBetween h1 with h2 | h2
    · rcases mem_insertSpaceBetween h2 with h3 | h3
      · exact Or.inl h3
      · exact Or.inr h3
    · exact Or.inr h2
  · exact Or.inr h1

theorem pipe_no_zw {m : JStr} {c : Char}
    (h : c ∈ stripZeroWidth m ∨ c = ' ') : isZeroWidth c = false := by
  rcases h with h | rfl
  · have := List.of_mem_filter h
    simpa using this
  · decide

theorem simplePipe_facts (m : JStr) (hT : containsThaiText m = true) :
    containsThaiText (simplePipe m) = true
    ∧ stripZeroWidth (simplePipe m) = simplePipe m
    ∧ collapseSpaces (simplePipe m) = simplePipe m
    ∧ jsTrim (simplePipe m) = simplePipe m := by
  obtain ⟨c, hc, hthai⟩ := List.any_eq_true.mp hT
  have hcs : c ∈ stripZeroWidth m :=
    List.mem_filter.mpr ⟨hc, by rw [thai_not_zw hthai]; rfl⟩
  refine ⟨?_, ?_, ?_, ?_⟩
  · apply List.any_eq_true.mpr
    refine ⟨c, ?_, hthai⟩
    unfold simplePipe
    exact mem_jsTrim_of_not_space
      (mem_collapseSpaces_of_mem hcs (thai_not_ws hthai)) (thai_not_ws hthai)
  · apply List.filter_eq_self.mpr
    intro a ha
    rw [pipe_no_zw (mem_simplePipe_source ha)]
    rfl
  · apply collapseSpaces_eq_self
    · exact chain'_jsTrim (chain'_nws_collapseSpaces _)
    · intro a ha hw
      exact collapseSpaces_ws_eq_space (mem_of_mem_jsTrim ha) hw
  · apply jsTrim_eq_self
    · intro x hx
      exact jsTrim_head_false hx
    · intro x hx
      exact jsTrim_getLast_false hx

theorem sharpPipe_facts (m : JStr) (hT : containsThaiText m = true) :
    containsThaiText (sharpPipe m) = true
    ∧ stripZeroWidth (sharpPipe m) = sharpPipe m
    ∧ insertSpaceBetween isAsciiAlnum isThaiSpacing (sharpPipe m) = sharpPipe m
    ∧ insertSpaceBetween isThaiSpacing isAsciiAlnum (sharpPipe m) = sharpPipe m
    ∧ collapseSpaces (sharpPipe m) = sharpPipe m
    ∧ jsTrim (sharpPipe m) = sharpPipe m := by
  obtain ⟨c, hc, hthai⟩ := List.any_eq_true.mp hT
  have hcs : c ∈ stripZeroWidth m :=
    List.mem_filter.mpr ⟨hc, by rw [thai_not_zw hthai]; rfl⟩
  refine ⟨?_, ?_, ?_, ?_, ?_, ?_⟩
  · apply List.any_eq_true.mpr
    refine ⟨c, ?_, hthai⟩
    unfold sharpPipe
    exact mem_jsTrim_of_not_space
      (mem_collapseSpaces_of_mem
        (subset_insertSpaceBetween (subset_insertSpaceBetween hcs))
        (thai_not_ws hthai))
      (thai_not_ws hthai)
  · apply List.filter_eq_self.mpr
    intro a ha
    rw [pipe_no_zw (mem_sharpPipe_source ha)]
    rfl
  · apply insertSpaceBetween_eq_self
    unfold sharpPipe
    apply chain'_jsTrim
    apply chain'_collapseSpaces
      (fun a hcon => absurd hcon.2 (by decide)) (fun b hcon => absurd hcon.1 (by decide))
    apply chain'_insert_preserve
      (fun a hcon => absurd hcon.2 (by decide)) (fun b hcon => absurd hcon.1 (by decide))
    exact chain'_insert_fresh (fun x hx => thaiSpacing_not_alnum hx) (by decide) (by decide) _
  · apply insertSpaceBetween_eq_self
    unfold sharpPipe
    apply chain'_jsTrim
    apply chain'_collapseSpaces
      (fun a hcon => absurd hcon.2 (by decide)) (fun b hcon => absurd hcon.1 (by decide))
    exact chain'_insert_fresh (fun x hx => alnum_not_thaiSpacing hx) (by decide) (by decide) _
  · apply collapseSpaces_eq_self
    · exact chain'_jsTrim (chain'_nws_collapseSpaces _)
    · intro a ha hw
      exact collapseSpaces_ws_eq_space (mem_of_mem_jsTrim ha) hw
  · apply jsTrim_eq_self
    · intro x hx
      exact jsTrim_head_false hx
    · intro x hx
      exact jsTrim_getLast_false hx

/-- C7 (amended): `normalizeThaiText` (both variants) strips the
zero-width marks U+200B–U+200D and U+FEFF only when the NFC'd text
contains a Thai codepoint — then no zero-width character survives in the
output (the whitespace is collapsed and trimmed as well); a text without
Thai codepoints is returned NFC-normalized but otherwise untouched, its
zero-width marks retained (see the counterexample). -/
theorem normalize_zero_width :
    (∀ (nfc : JStr → JStr) (s : JStr), containsThaiText (nfc s) = false →
      normalizeThaiTextSimple nfc s = nfc s ∧ normalizeThaiTextSharp nfc s = nfc s)
    ∧ (∀ (nfc : JStr → JStr) (s : JStr), containsThaiText (nfc s) = true →
      (∀ c ∈ normalizeThaiTextSimple nfc s, isZeroWidth c = false)
      ∧ (∀ c ∈ normalizeThaiTextSharp nfc s, isZeroWidth c = false)) := by
  constructor
  · intro nfc s h
    constructor
    · simp [normalizeThaiTextSimple, h]
    · simp [normalizeThaiTextSharp, h]
  · intro nfc s h
    constructor
    · intro c hc
      rw [normalizeThaiTextSimple] at hc
      simp only [h, if_true, reduceIte] at hc
      exact pipe_no_zw (mem_simplePipe_source hc)
    · intro c hc
      rw [normalizeThaiTextSharp] at hc
      simp only [h, if_true, reduceIte] at hc
      exact pipe_no_zw (mem_sharpPipe_source hc)

/-- Witness for C7's amended theorem: a Thai-free string passes through
unchanged, and in a Thai string's output every character — here the ก that
survives — is zero-width-free. -/
theorem normalize_zero_width_witness :
    containsThaiText (nfcModel (js "a​b")) = false
    ∧ normalizeThaiTextSimple nfcModel (js "a​b") = nfcModel (js "a​b")
    ∧ containsThaiText (nfcModel (js "ก​b")) = true
    ∧ 'ก' ∈ normalizeThaiTextSimple nfcModel (js "ก​b")
    ∧ isZeroWidth 'ก' = false := by
  refine ⟨by decide, ?_, by decide, by decide, ?_⟩
  · exact (normalize_zero_width.1 nfcModel (js "a​b") (by decide)).1
  · exact (normalize_zero_width.2 nfcModel (js "ก​b") (by decide)).1 'ก' (by decide)

/-- C8 (amended): both `normalizeThaiText` variants are idempotent
whenever the NFC step fixes the first pass's output — in particular for
text whose zero-width stripping and spacing adjustment create no new
composable character pairs.  (Real NFC violates this premise for inputs
like ก e ZWNJ ◌́, making normalization non-idempotent; see the
counterexample.) -/
theorem normalize_idempotent_of_nfc_fixed :
    (∀ (nfc : JStr → JStr) (s : JStr),
      nfc (normalizeThaiTextSimple nfc s) = normalizeThaiTextSimple nfc s →
      normalizeThaiTextSimple nfc (normalizeThaiTextSimple nfc s)
        = normalizeThaiTextSimple nfc s)
    ∧ (∀ (nfc : JStr → JStr) (s : JStr),
      nfc (normalizeThaiTextSharp nfc s) = normalizeThaiTextSharp nfc s →
      normalizeThaiTextSharp nfc (normalizeThaiTextSharp nfc s)
        = normalizeThaiTextSharp nfc s) := by
  constructor
  · intro nfc s hfix
    by_cases hT : containsThaiText (nfc s) = true
    · have hNs : normalizeThaiTextSimple nfc s = simplePipe (nfc s) := by
        simp only [normalizeThaiTextSimple, hT, reduceIte]
      rw [hNs] at hfix ⊢
      obtain ⟨f1, f2, f3, f4⟩ := simplePipe_facts (nfc s) hT
      have hfin : simplePipe (simplePipe (nfc s)) = simplePipe (nfc s) := by
        conv_lhs => rw [simplePipe]
        rw [f2, f3, f4]
      simp only [normalizeThaiTextSimple, hfix, f1, reduceIte]
      exact hfin
    · have hNs : normalizeThaiTextSimple nfc s = nfc s := by
        simp only [normalizeThaiTextSimple]
        rw [if_neg hT]
      rw [hNs] at hfix ⊢
      simp only [normalizeThaiTextSimple, hfix]
      rw [if_neg hT]
  · intro nfc s hfix
    by_cases hT : containsThaiText (nfc s) = true
    · have hNs : normalizeThaiTextSharp nfc s = sharpPipe (nfc s) := by
        simp only [normalizeThaiTextSharp, hT, reduceIte]
      rw [hNs] at hfix ⊢
      obtain ⟨f1, f2, f3, f4, f5, f6⟩ := sharpPipe_facts (nfc s) hT
      have hfin : sharpPipe (sharpPipe (nfc s)) = sharpPipe (nfc s) := by
        conv_lhs => rw [sharpPipe]
        rw [f2, f3, f4, f5, f6]
      simp only [normalizeThaiTextSharp, hfix, f1, reduceIte]
      exact hfin
    · have hNs : normalizeThaiTextSharp nfc s = nfc s := by
        simp only [normalizeThaiTextSharp]
        rw [if_neg hT]
      rw [hNs] at hfix ⊢
      simp only [normalizeThaiTextSharp, hfix]
      rw [if_neg hT]

/-- Witness for C8's amended theorem with the identity as the (here
fixed-point) NFC step, on a mixed Thai+Latin string. -/
theorem normalize_idempotent_witness :
    normalizeThaiTextSimple id (normalizeThaiTextSimple id (js "กab"))
      = normalizeThaiTextSimple id (js "กab")
    ∧ normalizeThaiTextSharp id (normalizeThaiTextSharp id (js "กab"))
      = normalizeThaiTextSharp id (js "กab") :=
  ⟨normalize_idempotent_of_nfc_fixed.1 id (js "กab") rfl,
   normalize_idempotent_of_nfc_fixed.2 id (js "กab") rfl⟩
